import Mathlib

/-!
# Verification of the scid_backtester core against its specification

Shallow embedding of the repository's Python sources:
* `parsers.py`      — binary record decoding for `.scid` (Time & Sales) and `.depth` files,
* `sym_it.py`       — the two-stream timestamp merger `SymIt`,
* `bar_builder.py`  — volume-bar aggregation,
* `reconstruct_depth.py` — order-book snapshot reconstruction,
* `etl_arctic.py`   — checkpointed depth-file orchestration.

Byte sources are modelled as `List Nat` (one entry per byte, each < 256 in real files,
though the definitions are total for any values).  Machine integers are `Nat`/`Int`:
the int64 timestamp field is decoded through an explicit two's-complement conversion.
IEEE-754 float32 fields (prices, in the wire layouts) are kept as their raw 4-byte
little-endian words (`Nat`); the float multiplication performed by the `transform_*`
functions is abstracted as an opaque word function, which is sound for the claims
below because none of them depends on arithmetic properties of the multiplication.
Fallible code (a `struct.error` raised by `unpack_from` on a short buffer, an
`IndexError` on an empty-list `[-1]` access) is modelled with `Except`/`Option`.
-/

namespace Scid

/-! ## Record Codec (`parsers.py`) -/

/-- Little-endian read of `n` bytes of `b` starting at offset `off`
(the byte at `off` is least significant), as `struct` does for `I`/`H`/`B`/`q`. -/
def readLE (b : List Nat) (off : Nat) : Nat → Nat
  | 0 => 0
  | m + 1 => b.getD off 0 + 256 * readLE b (off + 1) m

/-- Two's-complement reinterpretation of a 64-bit word, for the `q` (int64) field. -/
def toInt64 (n : Nat) : Int :=
  if n < 2 ^ 63 then (n : Int) else (n : Int) - 2 ^ 64

/-- `calcsize("4cIIHHI36c")`: the fixed `.scid` header length. -/
def INTRADAY_HEADER_LEN : Nat := 56

/-- `calcsize("q4f4I")`: the fixed `.scid` record length. -/
def INTRADAY_REC_LEN : Nat := 40

/-- `calcsize("4I48c")`: the fixed `.depth` header length. -/
def DEPTH_HEADER_LEN : Nat := 64

/-- `calcsize("qBBHfII")`: the fixed `.depth` record length. -/
def DEPTH_REC_LEN : Nat := 24

/-- The read loop shared by `parse_tas` and `parse_depth`:
`while rec_bytes := fd.read(rl): UNPACK(rec_bytes)`.
A read of zero bytes (end of stream) ends the loop with the records so far;
a non-empty read shorter than the record length reaches `Struct.unpack_from`,
which raises `struct.error` (modelled as `Except.error ()`). -/
def parseChunks (rl : Nat) (data : List Nat) : Except Unit (List (List Nat)) :=
  if hd : data = [] then .ok []
  else if h : rl ≤ data.length ∧ 0 < rl then
    match parseChunks rl (data.drop rl) with
    | .ok cs => .ok (data.take rl :: cs)
    | .error e => .error e
  else .error ()
termination_by data.length
decreasing_by
  simp only [List.length_drop]
  have h1 : 0 < data.length := List.length_pos.mpr hd
  omega

/-- The 9-tuple produced by `INTRADAY_REC_UNPACK` (`struct` format `q4f4I`):
int64 timestamp, 4×float32 open/high/low/close (raw words), 4×uint32
numTrades/totalVolume/bidVolume/askVolume. -/
structure IntradayIR where
  ts : Int
  op : Nat
  hi : Nat
  lo : Nat
  close : Nat
  numTrades : Nat
  totalVol : Nat
  bidVol : Nat
  askVol : Nat
deriving DecidableEq, Repr

/-- Field extraction at the byte offsets fixed by the `q4f4I` layout
(no padding is inserted: 8 + 4·4 + 4·4 = 40). -/
def unpackIntraday (b : List Nat) : IntradayIR :=
  { ts := toInt64 (readLE b 0 8)
    op := readLE b 8 4
    hi := readLE b 12 4
    lo := readLE b 16 4
    close := readLE b 20 4
    numTrades := readLE b 24 4
    totalVol := readLE b 28 4
    bidVol := readLE b 32 4
    askVol := readLE b 36 4 }

/-- A decoded Time & Sales record `(timestamp, price, quantity, side)`.
`price` carries the raw float32 word of the `close` field. -/
structure TasRec where
  ts : Int
  price : Nat
  qty : Nat
  side : Nat
deriving DecidableEq, Repr

/-- The record construction of `parse_tas`:
`trade_side = 0 if ir[bid_vol] > 0 else 1`,
`trade_qty = ir[bid_vol] if ir[bid_vol] else ir[ask_vol]`,
`rec = (ir[timestamp], ir[close], trade_qty, trade_side)`. -/
def tasFromIR (ir : IntradayIR) : TasRec :=
  { ts := ir.ts
    price := ir.close
    qty := if ir.bidVol ≠ 0 then ir.bidVol else ir.askVol
    side := if ir.bidVol > 0 then 0 else 1 }

/-- `parse_tas(fd, checkpoint)`: the file descriptor sits just past the 56-byte
header when the checkpoint is 0, and `fd.seek(INTRADAY_HEADER_LEN + checkpoint *
INTRADAY_REC_LEN)` is issued otherwise, so reading always starts at byte
`56 + 40·checkpoint` of the file. -/
def parse_tas (file : List Nat) (checkpoint : Nat) : Except Unit (List TasRec) :=
  (parseChunks INTRADAY_REC_LEN
      (file.drop (INTRADAY_HEADER_LEN + checkpoint * INTRADAY_REC_LEN))).map
    (List.map fun b => tasFromIR (unpackIntraday b))

/-- `transform_tas(rs, price_adj)` multiplies each record's float32 price by the
multiplier and keeps the other fields.  The float multiplication is abstracted
as the opaque word function `adj`. -/
def transform_tas (rs : List TasRec) (adj : Nat → Nat) : List TasRec :=
  rs.map fun r => { r with price := adj r.price }

/-- A raw depth record as returned by `parse_depth` (struct format `qBBHfII`,
`reserved` still present): `(timestamp, command, flags, num_orders, price,
quantity, reserved)`.  `price` is the raw float32 word. -/
structure DepthRaw where
  ts : Int
  cmd : Nat
  flags : Nat
  norders : Nat
  price : Nat
  qty : Nat
  reserved : Nat
deriving DecidableEq, Repr

/-- Field extraction at the byte offsets fixed by the `qBBHfII` layout
(native alignment inserts no padding: 8+1+1+2+4+4+4 = 24). -/
def unpackDepth (b : List Nat) : DepthRaw :=
  { ts := toInt64 (readLE b 0 8)
    cmd := readLE b 8 1
    flags := readLE b 9 1
    norders := readLE b 10 2
    price := readLE b 12 4
    qty := readLE b 16 4
    reserved := readLE b 20 4 }

/-- `parse_depth(fd, checkpoint)`: same reading discipline as `parse_tas`, with
the 64-byte depth header and 24-byte records. -/
def parse_depth (file : List Nat) (checkpoint : Nat) : Except Unit (List DepthRaw) :=
  (parseChunks DEPTH_REC_LEN
      (file.drop (DEPTH_HEADER_LEN + checkpoint * DEPTH_REC_LEN))).map
    (List.map unpackDepth)

/-- The chunk list obtained from `data` by cutting `k` records of length `rl`. -/
def chunkList (rl : Nat) (data : List Nat) : Nat → List (List Nat)
  | 0 => []
  | k + 1 => data.take rl :: chunkList rl (data.drop rl) k

/-! ## Stream Merger (`sym_it.py`)

`SymIt` holds two buffers (`tas_recs`, `lob_recs`), two cursors and a logical
clock `ts`.  Buffers are modelled as the lists already fetched from disk (the
claims quantify over buffered, ascending-timestamp sequences); cursors are
either explicit indices (`symNext`, one `__next__` call) or, for a full drain,
the un-consumed suffixes of the buffers (`drain`). -/

/-- A merged record: either a Time & Sales tuple or a raw depth tuple. -/
abbrev MRec := TasRec ⊕ DepthRaw

/-- Timestamp of a merged record (field 0 of either tuple). -/
def mTs : MRec → Int
  | .inl t => t.ts
  | .inr l => l.ts

/-- `bisect_right(recs, v, key=timestamp)` on a buffer that is ascending in
timestamp: the insertion index, i.e. the number of records with timestamp ≤ v. -/
def bisectRight (key : α → Int) (l : List α) (v : Int) : Nat :=
  l.countP fun r => decide (key r ≤ v)

/-- One `SymIt.__next__` call at cursors `(ti, li)`:
emit the depth record when the tick cursor is exhausted or the depth timestamp
is strictly smaller, otherwise emit the tick record; `StopIteration`
(modelled as `none`) exactly when the depth cursor is exhausted.
Returns `(record, tas_i, lob_i, ts)` after the call. -/
def symNext (tas : List TasRec) (lob : List DepthRaw) (ti li : Nat) :
    Option (MRec × Nat × Nat × Int) :=
  match lob[li]? with
  | none => none
  | some l =>
    match tas[ti]? with
    | none => some (.inr l, ti, li + 1, l.ts)
    | some t =>
      if l.ts < t.ts then some (.inr l, ti, li + 1, l.ts)
      else some (.inl t, ti + 1, li, t.ts)

/-- Full drain: repeated `__next__` until `StopIteration`, with the cursors
represented by the remaining buffer suffixes.  Iteration stops as soon as the
depth suffix is empty, even when tick records remain. -/
def drain : List TasRec → List DepthRaw → List MRec
  | _, [] => []
  | [], l :: ls => .inr l :: drain [] ls
  | t :: ts, l :: ls =>
    if l.ts < t.ts then .inr l :: drain (t :: ts) ls
    else .inl t :: drain ts (l :: ls)
termination_by tas lob => tas.length + lob.length

/-- `SymIt.synchronize(update)` after the optional fetch:
`lob_i := bisect_right(lob_recs, ts)`; if that lands inside the buffer the
clock becomes that record's timestamp, otherwise the last buffered depth
timestamp — an uncaught `IndexError` (`none`) when the depth buffer is empty;
finally `tas_i := bisect_right(tas_recs, ts)`.
Returns `(tas_i, lob_i, ts)`. -/
def symSynchronize (tas : List TasRec) (lob : List DepthRaw) (ts : Int) :
    Option (Nat × Nat × Int) :=
  let lobI := bisectRight DepthRaw.ts lob ts
  if h : lobI < lob.length then
    let ts2 := (lob.get ⟨lobI, h⟩).ts
    some (bisectRight TasRec.ts tas ts2, lobI, ts2)
  else
    match lob.getLast? with
    | none => none
    | some r => some (bisectRight TasRec.ts tas r.ts, lobI, r.ts)

/-- `SymIt.all()` with the buffers already holding the day's full data.
Two synchronizations happen before anything is emitted: `set_ts(0, update)`
synchronizes at clock 0 (which moves the clock to the first depth
timestamp), then `for r in self` enters `__iter__`, which runs
`synchronize(True)` a second time — on a fully-read file the fetch appends
nothing, but the cursors ARE re-bisected at the advanced clock, moving the
depth cursor past the whole first depth-timestamp group, moving the clock to
the next depth timestamp (or the last buffered one when none is later), and
moving the tick cursor past every tick at or before that clock.  Only then
is the iterator drained to `StopIteration`.  The final `set_ts(old_ts)` does
not affect the returned list. -/
def allRecs (tas : List TasRec) (lob : List DepthRaw) : Option (List MRec) :=
  match symSynchronize tas lob 0 with
  | none => none
  | some (_, _, ts1) =>
    match symSynchronize tas lob ts1 with
    | none => none
    | some (tasI, lobI, _) => some (drain (tas.drop tasI) (lob.drop lobI))

/-- The timestamp of the last buffered depth record (0 for an empty buffer;
only used beneath a non-emptiness hypothesis). -/
def lobLastTs (lob : List DepthRaw) : Int :=
  match lob.getLast? with
  | some r => r.ts
  | none => 0

/-! ## Bar Aggregator (`bar_builder.py`, volume bars)

The input is the session-filtered, timestamp-sorted tick DataFrame that
`build_volume_bars` works on after `filter_session_hours` and `sort_index`
(the claims quantify over exactly such sequences).  Prices, decoded floats at
this stage, are modelled as rationals.  The `NEW_BAR_AT_SESSION_START` branch
(the config default) is embedded: each tick carries the Boolean
`df.index.time == SESSION_START` as the field `sessStart`. -/

/-- One row of the tick DataFrame inside `build_volume_bars`. -/
structure VTick where
  ts : Int
  price : ℚ
  qty : Nat
  sessStart : Bool
deriving DecidableEq, Repr

/-- Bar IDs: `cumulative_volume // volume_per_bar + np.cumsum(session_starts)`,
where `cumulative_volume` is the inclusive running sum of `qty`.
`cum`/`starts` are the running sums before the current tick. -/
def volBarIds (V : Nat) : Nat → Nat → List VTick → List Nat
  | _, _, [] => []
  | cum, starts, t :: ts =>
    let c := cum + t.qty
    let s := starts + (if t.sessStart then 1 else 0)
    (c / V + s) :: volBarIds V c s ts

/-- `df.groupby(bar_ids)`: since the IDs are non-decreasing, grouping by equal
ID value is grouping into maximal runs of equal IDs, in order. -/
def groupRuns : List (Nat × VTick) → List (List (Nat × VTick))
  | [] => []
  | x :: xs =>
    match groupRuns xs with
    | [] => [[x]]
    | g :: gs =>
      match g with
      | [] => [x] :: gs
      | y :: _ => if x.1 = y.1 then (x :: g) :: gs else [x] :: g :: gs

/-- The tick groups underlying the volume bars of `build_volume_bars`. -/
def volGroups (ticks : List VTick) (V : Nat) : List (List VTick) :=
  (groupRuns ((volBarIds V 0 0 ticks).zip ticks)).map (List.map Prod.snd)

/-- One output row: `open=first, high=max, low=min, close=last, volume=sum(qty),
bar_time_first=x.index[0], bar_time_last=x.index[-1]`. -/
structure Bar where
  op : ℚ
  hi : ℚ
  lo : ℚ
  close : ℚ
  volume : Nat
  tFirst : Int
  tLast : Int
deriving DecidableEq, Repr

/-- Aggregation of one (non-empty) group into a bar. -/
def mkBar (g : List VTick) : Bar :=
  match g with
  | [] => ⟨0, 0, 0, 0, 0, 0, 0⟩
  | t :: ts =>
    { op := t.price
      hi := ts.foldl (fun m x => max m x.price) t.price
      lo := ts.foldl (fun m x => min m x.price) t.price
      close := (ts.getLastD t).price
      volume := t.qty + (ts.map VTick.qty).sum
      tFirst := t.ts
      tLast := (ts.getLastD t).ts }

/-- `build_volume_bars(df, volume_per_bar)` on the session-filtered, sorted
tick sequence. -/
def build_volume_bars (ticks : List VTick) (volume_per_bar : Nat) : List Bar :=
  (volGroups ticks volume_per_bar).map mkBar

/-! ## Order Book Reconstructor (`reconstruct_depth.py`)

Here the input is the decoded depth DataFrame (`{symbol}_depth`): prices are
decoded, price-adjusted floats, modelled as rationals (float comparison and
equality on the finite values that occur coincide with the rational order;
the midpoint `(lo+hi)/2` of the repair step is exact here, a difference from
float rounding that no claim's conclusion can observe because the repaired
book is re-validated before being returned).  The DataFrame's default integer
index makes `df.loc[start:end]` the inclusive positional slice.  A Python dict
is an insertion-ordered map with unique keys: a book side is an association
list with unique price keys, updated in place on overwrite and appended to on
fresh insert. -/

/-- One decoded depth row: `timestamp, command, flags, num_orders, price,
quantity` (the DataFrame columns used by `reconstruct_depth.py`). -/
structure DepthRec where
  ts : Int
  cmd : Int
  flags : Nat
  norders : Int
  price : ℚ
  qty : Int
deriving DecidableEq, Repr

/-- One side of the book: `price -> (quantity, num_orders)` as an ordered
association list. -/
abbrev Book := List (ℚ × Int × Int)

/-- `price in side`. -/
def bookContains (b : Book) (p : ℚ) : Bool :=
  b.any fun e => decide (e.1 = p)

/-- `del side[price]` (a no-op when the key is absent, matching the guarded
call sites). -/
def bookErase (b : Book) (p : ℚ) : Book :=
  b.filter fun e => decide (e.1 ≠ p)

/-- `side[price] = (qty, num_orders)`: overwrite in place, else append. -/
def bookSet (b : Book) (p : ℚ) (v : Int × Int) : Book :=
  if bookContains b p then b.map fun e => if e.1 = p then (p, v) else e
  else b ++ [(p, v)]

/-- `apply_depth_update(bids, asks, row)` with `validate=True` (the value used
by the reconstruction): invalid commands and non-clear commands with
`price <= 0 or quantity < 0 or num_orders < 0` are skipped; CLEAR_BOOK empties
both sides; ADD/MODIFY upsert on the parity-selected side after removing the
price from the opposite side; DELETE removes the price if present. -/
def apply_depth_update (s : Book × Book) (r : DepthRec) : Book × Book :=
  if ¬ (1 ≤ r.cmd ∧ r.cmd ≤ 7) then s
  else if r.cmd ≠ 1 ∧ (r.price ≤ 0 ∨ r.qty < 0 ∨ r.norders < 0) then s
  else if r.cmd = 1 then ([], [])
  else
    let isBid := r.cmd % 2 = 0
    if (r.cmd = 2 ∨ r.cmd = 4) ∧ isBid then
      (bookSet s.1 r.price (r.qty, r.norders), bookErase s.2 r.price)
    else if (r.cmd = 3 ∨ r.cmd = 5) ∧ ¬ isBid then
      (bookErase s.1 r.price, bookSet s.2 r.price (r.qty, r.norders))
    else if r.cmd = 6 ∧ isBid ∧ bookContains s.1 r.price then
      (bookErase s.1 r.price, s.2)
    else if r.cmd = 7 ∧ ¬ isBid ∧ bookContains s.2 r.price then
      (s.1, bookErase s.2 r.price)
    else s

/-- A completed snapshot `(start_idx, end_idx, start_ts, end_ts)`. -/
structure Snap where
  sIdx : Nat
  eIdx : Nat
  sTs : Int
  eTs : Int
deriving DecidableEq, Repr

/-- The loop of `find_completed_snapshots`: CLEAR_BOOK (re)opens a snapshot at
the current row; while one is open, every row whose flags have bit 0x01 set
closes a snapshot (the open start is kept, not reset). -/
def findSnapsAux : List DepthRec → Nat → Option (Nat × Int) → List Snap
  | [], _, _ => []
  | r :: rs, idx, st =>
    let st2 := if r.cmd = 1 then some (idx, r.ts) else st
    match st2 with
    | some (si, sts) =>
      if r.flags &&& 1 ≠ 0 then
        ⟨si, idx, sts, r.ts⟩ :: findSnapsAux rs (idx + 1) (some (si, sts))
      else findSnapsAux rs (idx + 1) (some (si, sts))
    | none => findSnapsAux rs (idx + 1) none

/-- `find_completed_snapshots(df_depth)`. -/
def find_completed_snapshots (df : List DepthRec) : List Snap :=
  findSnapsAux df 0 none

/-- `max(bids.keys())` (only consulted on a non-empty side). -/
def maxKey : Book → ℚ
  | [] => 0
  | e :: t => t.foldl (fun m x => max m x.1) e.1

/-- `min(asks.keys())` (only consulted on a non-empty side). -/
def minKey : Book → ℚ
  | [] => 0
  | e :: t => t.foldl (fun m x => min m x.1) e.1

/-- `validate_book_state`: an empty or one-sided book is valid; otherwise
`max(bids) < min(asks)` is required. -/
def validate_book_state (bids asks : Book) : Bool :=
  if bids.isEmpty || asks.isEmpty then true
  else decide (maxKey bids < minKey asks)

/-- Repair phase 1: `for price in list(bids.keys()): if price >= mid_price:`
move the level to the ask side.  The iteration list is the pre-loop bid
snapshot, whose entries still carry their original values when moved. -/
def moveGeMid (mid : ℚ) : Book × Book → List (ℚ × Int × Int) → Book × Book
  | s, [] => s
  | (b, a), (p, v) :: rest =>
    if p ≥ mid then moveGeMid mid (bookErase b p, bookSet a p v) rest
    else moveGeMid mid (b, a) rest

/-- Repair phase 2: `for price in list(asks.keys()): if price < mid_price:`
move the level to the bid side (iterating the ask side as left by phase 1). -/
def moveLtMid (mid : ℚ) : Book × Book → List (ℚ × Int × Int) → Book × Book
  | s, [] => s
  | (b, a), (p, v) :: rest =>
    if p < mid then moveLtMid mid (bookSet b p v, bookErase a p) rest
    else moveLtMid mid (b, a) rest

instance decLevelDesc : DecidableRel fun (x y : ℚ × Int × Int) => y.1 ≤ x.1 :=
  fun a b => inferInstanceAs (Decidable (b.1 ≤ a.1))

instance decLevelAsc : DecidableRel fun (x y : ℚ × Int × Int) => x.1 ≤ y.1 :=
  fun a b => inferInstanceAs (Decidable (a.1 ≤ b.1))

instance levelDescTotal : IsTotal (ℚ × Int × Int) fun x y => y.1 ≤ x.1 :=
  ⟨fun a b => le_total b.1 a.1⟩

instance levelDescTrans : IsTrans (ℚ × Int × Int) fun x y => y.1 ≤ x.1 :=
  ⟨fun _ _ _ hab hbc => le_trans hbc hab⟩

instance levelAscTotal : IsTotal (ℚ × Int × Int) fun x y => x.1 ≤ y.1 :=
  ⟨fun a b => le_total a.1 b.1⟩

instance levelAscTrans : IsTrans (ℚ × Int × Int) fun x y => x.1 ≤ y.1 :=
  ⟨fun _ _ _ => le_trans⟩

/-- `sorted(list(bids.keys()) + list(asks.keys()))`. -/
def sortAscQ (l : List ℚ) : List ℚ :=
  List.insertionSort (· ≤ ·) l

/-- The cleanup block of `reconstruct_book_last_full_snapshot`, entered when
validation fails: with more than one observed price, compute the midpoint of
the full price range and reassign bids ≥ midpoint to asks, then asks <
midpoint to bids. -/
def repair (bids asks : Book) : Book × Book :=
  let allP := sortAscQ (bids.map (·.1) ++ asks.map (·.1))
  match allP with
  | [] => (bids, asks)
  | [_] => (bids, asks)
  | p :: rest =>
    let mid := (p + (p :: rest).getLast (List.cons_ne_nil p rest)) / 2
    let s1 := moveGeMid mid (bids, asks) bids
    moveLtMid mid s1 s1.2

/-- `max(valid_snaps, key=lambda x: x[3])`: Python's `max` keeps the first
maximum (a later element replaces the best only when strictly greater). -/
def maxByEts : Snap → List Snap → Snap
  | best, [] => best
  | best, s :: rest => maxByEts (if s.eTs > best.eTs then s else best) rest

/-- The replay-and-repair body of `reconstruct_book_last_full_snapshot` for
the chosen snapshot: slice `df.loc[start:end]` (inclusive), fold
`apply_depth_update` over it from two empty sides, and run the cleanup block
when validation fails. -/
def snapBooks (df : List DepthRec) (best : Snap) : Book × Book :=
  let rows := (df.drop best.sIdx).take (best.eIdx + 1 - best.sIdx)
  let s0 := rows.foldl apply_depth_update ([], [])
  if validate_book_state s0.1 s0.2 then s0 else repair s0.1 s0.2

/-- `reconstruct_book_last_full_snapshot` up to (and including) the final
validation gate, returning the full post-repair book sides; `none` models the
`(None, [], [])` returns (no snapshots, no snapshot at or before the target,
or a book still invalid after cleanup). -/
def reconstructCore (df : List DepthRec) (targetTs : Int) : Option (Int × Book × Book) :=
  match (find_completed_snapshots df).filter (fun s => decide (s.eTs ≤ targetTs)) with
  | [] => none
  | v :: vs =>
    let best := maxByEts v vs
    let s1 := snapBooks df best
    if validate_book_state s1.1 s1.2 then some (best.eTs, s1.1, s1.2) else none

/-- `sorted(((p, q, n) ...), reverse=True)[:max_depth]` — the price keys are
unique, so the tuple sort is the sort by price, descending. -/
def sortLevelsDesc (b : Book) : Book :=
  List.insertionSort (fun x y => y.1 ≤ x.1) b

/-- `sorted(((p, q, n) ...))[:max_depth]`, ascending by (unique) price. -/
def sortLevelsAsc (b : Book) : Book :=
  List.insertionSort (fun x y => x.1 ≤ y.1) b

/-- `reconstruct_book_last_full_snapshot(df_depth, target_ts, max_depth)`:
`none` models the `(None, [], [])` "no valid snapshot" result. -/
def reconstruct_book_last_full_snapshot (df : List DepthRec) (target_ts : Int)
    (max_depth : Nat) : Option (Int × Book × Book) :=
  match reconstructCore df target_ts with
  | none => none
  | some (ets, bids, asks) =>
    some (ets, (sortLevelsDesc bids).take max_depth, (sortLevelsAsc asks).take max_depth)

/-! ## Incremental ETL Orchestrator (`etl_arctic.py`, depth side)

`etl_depth` lists the depth directory, keeps the files whose first dot-field
matches the contract pattern and whose second dot-field (the `YYYYMMDD` date)
is `>=` the checkpoint date, sorts the names, and starts one
`etl_depth_coro` per file.  File names are modelled structurally as
`symbol ++ "." ++ date ++ ".depth"` with a dot-free symbol (the platform's
naming scheme, required for `f.split(".")` to put the date in `parts[1]`);
the `re.match(con_id, parts[0])` test is abstracted as a predicate on the
symbol. -/

/-- A depth file: symbol part and date part of `sym.date.depth`. -/
structure DFile where
  sym : List Char
  date : List Char
deriving DecidableEq, Repr

/-- The fixed `depth` extension. -/
def depthExt : List Char := ['d', 'e', 'p', 't', 'h']

/-- The on-disk file name `sym.date.depth`. -/
def fullName (f : DFile) : List Char :=
  f.sym ++ '.' :: f.date ++ '.' :: depthExt

/-- Python string `<=` (lexicographic on code points). -/
def lexLe : List Char → List Char → Bool
  | [], _ => true
  | _ :: _, [] => false
  | a :: as, b :: bs => if a = b then lexLe as bs else decide (a < b)

/-- Python `needle in hay` on strings: contiguous-substring containment. -/
def hasSub (needle : List Char) : List Char → Bool
  | [] => needle.isEmpty
  | c :: cs => needle.isPrefixOf (c :: cs) || hasSub needle cs

/-- Insertion step of `sorted(to_parse)` (ascending by full file name). -/
def insertByName (f : DFile) : List DFile → List DFile
  | [] => [f]
  | g :: gs => if lexLe (fullName f) (fullName g) then f :: g :: gs else g :: insertByName f gs

/-- `sorted(to_parse)`. -/
def sortFiles : List DFile → List DFile
  | [] => []
  | f :: fs => insertByName f (sortFiles fs)

/-- The selected, sorted file list of one contract's pass:
`[f for f in files if match(con_id, parts[0]) and parts[1] >= checkpoint_date]`,
then `sorted(...)`. -/
def etlToParse (files : List DFile) (matchP : List Char → Bool) (D : List Char) :
    List DFile :=
  sortFiles (files.filter fun f => matchP f.sym && lexLe D f.date)

/-- `cp = checkpoint_rec if checkpoint_date in depth_file else 0`:
the stored record offset is applied to a file iff the checkpoint date occurs
as a substring of its full name. -/
def etlCp (D : List Char) (R : Nat) (f : DFile) : Nat :=
  if hasSub D (fullName f) then R else 0

/-- `mod = loop_mode if depth_file == to_parse[-1] else 0`. -/
def etlMod (loopMode : Nat) (toParse : List DFile) (f : DFile) : Nat :=
  if toParse.getLast? = some f then loopMode else 0

/-- One-shot `etl_depth_coro` checkpoint arithmetic: a file holding `nrec`
whole records parsed from record offset `cp` yields `nrec - cp` records (zero
when the seek lands at or past the end), and the returned checkpoint is
`cp + len(parsed)`. -/
def etlCoroFinalCp (nrec cp : Nat) : Nat :=
  cp + (nrec - cp)

/-- The checkpoint written back after a contract's files all complete:
`(date of last file, checkpoint returned by the last coroutine)`; `none` when
no file was selected (the contract is skipped, checkpoint untouched). -/
def etlNewCheckpoint (toParse : List DFile) (nrec : DFile → Nat) (D : List Char)
    (R : Nat) : Option (List Char × Nat) :=
  match toParse.getLast? with
  | none => none
  | some lf => some (lf.date, etlCoroFinalCp (nrec lf) (etlCp D R lf))

/-! ## Shared lemmas and claim theorems -/

theorem parseChunks_whole (rl : Nat) (hrl : 0 < rl) :
    ∀ (k : Nat) (data : List Nat), data.length = rl * k →
      parseChunks rl data = .ok (chunkList rl data k) := by
  intro k
  induction k with
  | zero =>
    intro data hlen
    have : data = [] := List.length_eq_zero.mp (by simpa using hlen)
    subst this
    simp [parseChunks, chunkList]
  | succ k ih =>
    intro data hlen
    have hpos : 0 < data.length := by
      rw [hlen]; exact Nat.mul_pos hrl (Nat.succ_pos k)
    have hne : data ≠ [] := List.length_pos.mp hpos
    have hle : rl ≤ data.length := by
      rw [hlen, Nat.mul_succ]; omega
    rw [parseChunks]
    simp only [hne, dite_false]
    have hdrop : (data.drop rl).length = rl * k := by
      rw [List.length_drop, hlen, Nat.mul_succ]; omega
    rw [dif_pos ⟨hle, hrl⟩, ih (data.drop rl) hdrop]
    rfl

theorem parseChunks_error_aux (rl : Nat) :
    ∀ (n : Nat) (data : List Nat), data.length = n → data.length % rl ≠ 0 →
      parseChunks rl data = .error () := by
  intro n
  induction n using Nat.strong_induction_on with
  | _ n ih =>
    intro data hn hmod
    have hne : data ≠ [] := by
      intro h; subst h; simp at hmod
    rw [parseChunks]
    simp only [hne, dite_false]
    by_cases h : rl ≤ data.length ∧ 0 < rl
    · rw [dif_pos h]
      have hdl : (data.drop rl).length = data.length - rl := List.length_drop rl data
      have hmod' : (data.drop rl).length % rl ≠ 0 := by
        rw [hdl, ← Nat.mod_eq_sub_mod h.1]
        exact hmod
      have hlt : (data.drop rl).length < n := by
        have : 0 < data.length := List.length_pos.mpr hne
        omega
      rw [ih _ hlt _ rfl hmod']
    · rw [dif_neg h]

theorem parseChunks_error (rl : Nat) (data : List Nat) (hmod : data.length % rl ≠ 0) :
    parseChunks rl data = .error () :=
  parseChunks_error_aux rl data.length data rfl hmod

theorem parseChunks_tail (rl : Nat) (data : List Nat) (cs : List (List Nat))
    (h : parseChunks rl data = .ok cs) :
    parseChunks rl (data.drop rl) = .ok cs.tail := by
  by_cases hd : data = []
  · subst hd
    simp only [List.drop_nil]
    rw [parseChunks] at h ⊢
    simp only [dite_true] at h ⊢
    cases h
    rfl
  · rw [parseChunks] at h
    simp only [hd, dite_false] at h
    by_cases hc : rl ≤ data.length ∧ 0 < rl
    · rw [dif_pos hc] at h
      cases heq : parseChunks rl (data.drop rl) with
      | ok cs' => rw [heq] at h; cases h; rfl
      | error e => rw [heq] at h; cases h
    · rw [dif_neg hc] at h; cases h

theorem parseChunks_drop (rl : Nat) :
    ∀ (N : Nat) (data : List Nat) (cs : List (List Nat)),
      parseChunks rl data = .ok cs →
      parseChunks rl (data.drop (rl * N)) = .ok (cs.drop N) := by
  intro N
  induction N with
  | zero => intro data cs h; simpa using h
  | succ N ih =>
    intro data cs h
    have h1 := parseChunks_tail rl data cs h
    have h2 := ih (data.drop rl) cs.tail h1
    rw [List.drop_drop] at h2
    rw [show rl * (N + 1) = rl + rl * N by ring, h2]
    congr 1
    cases cs <;> simp

theorem parseChunks_getElem (rl : Nat) :
    ∀ (i : Nat) (data : List Nat) (cs : List (List Nat)),
      parseChunks rl data = .ok cs → i < cs.length →
      cs[i]? = some ((data.drop (rl * i)).take rl) := by
  intro i
  induction i with
  | zero =>
    intro data cs h hlt
    by_cases hd : data = []
    · subst hd
      rw [parseChunks] at h
      simp only [dite_true] at h
      cases h
      simp at hlt
    · rw [parseChunks] at h
      simp only [hd, dite_false] at h
      by_cases hc : rl ≤ data.length ∧ 0 < rl
      · rw [dif_pos hc] at h
        cases heq : parseChunks rl (data.drop rl) with
        | ok cs' =>
          rw [heq] at h; cases h
          simp
        | error e => rw [heq] at h; cases h
      · rw [dif_neg hc] at h; cases h
  | succ i ih =>
    intro data cs h hlt
    have h1 := parseChunks_tail rl data cs h
    have hcs : cs ≠ [] := by
      intro hh; subst hh; simp at hlt
    obtain ⟨c, cs', rfl⟩ := List.exists_cons_of_ne_nil hcs
    have h2 := ih (data.drop rl) cs' h1 (by simpa using hlt)
    rw [List.drop_drop] at h2
    rw [show rl * (i + 1) = rl + rl * i by ring]
    simpa using h2

theorem chunkList_length (rl : Nat) :
    ∀ (k : Nat) (data : List Nat), (chunkList rl data k).length = k := by
  intro k
  induction k with
  | zero => intro data; rfl
  | succ k ih => intro data; simp [chunkList, ih]

/-! ### Claim C10 — empty depth buffer -/

/-- C10: whenever the depth buffer is empty after the optional fetch (for
example, the day's depth file holds zero whole records), `synchronize`
reads `lob_recs[-1]` on an empty list and raises an uncaught `IndexError`
(`none`), for any tick buffer and any clock value; consequently `all()`
(which resynchronizes at clock 0 before draining) also fails with the same
`IndexError` instead of returning an empty merge or draining the remaining
tick records. -/
theorem c10_empty_depth_buffer_raises (tas : List TasRec) (ts : Int) :
    symSynchronize tas [] ts = none ∧ allRecs tas [] = none := by
  constructor
  · simp [symSynchronize, bisectRight]
  · simp [allRecs, symSynchronize, bisectRight]

/-! ### Claim C3 — tie-breaking in `__next__` -/

/-- C3 counterexample: with both buffers holding one record at the same
timestamp 5, `__next__` emits the TICK record and advances the tick cursor
(`some (.inl tick, tas_i+1, lob_i, 5)`), which differs from the depth record
with only the depth cursor advanced that the claim prescribes. -/
theorem c3_counterexample_tie_emits_tick :
    symNext [⟨5, 1, 2, 0⟩] [⟨5, 1, 0, 1, 3, 4, 0⟩] 0 0
        = some (.inl ⟨5, 1, 2, 0⟩, 1, 0, 5) ∧
      some ((.inl ⟨5, 1, 2, 0⟩ : MRec), 1, 0, (5 : Int))
        ≠ some ((.inr ⟨5, 1, 0, 1, 3, 4, 0⟩ : MRec), 0, 1, (5 : Int)) := by
  constructor
  · rfl
  · decide

/-- C3 (amended): when both cursors point at unread records, `__next__` emits
the record with the smaller timestamp and advances its cursor, but on an
exact timestamp tie the TICK record is emitted first and only the tick
cursor advances (the depth record is emitted only on `lob.ts < tas.ts`). -/
theorem c3_amended_next_comparison (tas : List TasRec) (lob : List DepthRaw)
    (ti li : Nat) (t : TasRec) (l : DepthRaw)
    (ht : tas[ti]? = some t) (hl : lob[li]? = some l) :
    (l.ts = t.ts → symNext tas lob ti li = some (.inl t, ti + 1, li, t.ts)) ∧
    (l.ts < t.ts → symNext tas lob ti li = some (.inr l, ti, li + 1, l.ts)) ∧
    (t.ts < l.ts → symNext tas lob ti li = some (.inl t, ti + 1, li, t.ts)) := by
  refine ⟨fun hcmp => ?_, fun hcmp => ?_, fun hcmp => ?_⟩
  · simp [symNext, ht, hl, hcmp]
  · simp [symNext, ht, hl, hcmp]
  · simp only [symNext, ht, hl]
    rw [if_neg (by omega)]

/-- Witness for `c3_amended_next_comparison` at one-record buffers tied at
timestamp 3. -/
theorem c3_amended_next_comparison_witness :
    (([⟨3, 0, 0, 0⟩] : List TasRec)[0]? = some ⟨3, 0, 0, 0⟩) ∧
    (([⟨3, 9, 9, 9, 9, 9, 9⟩] : List DepthRaw)[0]? = some ⟨3, 9, 9, 9, 9, 9, 9⟩) ∧
    symNext [⟨3, 0, 0, 0⟩] [⟨3, 9, 9, 9, 9, 9, 9⟩] 0 0
      = some (.inl ⟨3, 0, 0, 0⟩, 0 + 1, 0, (3 : Int)) :=
  ⟨rfl, rfl,
    (c3_amended_next_comparison [⟨3, 0, 0, 0⟩] [⟨3, 9, 9, 9, 9, 9, 9⟩] 0 0
      ⟨3, 0, 0, 0⟩ ⟨3, 9, 9, 9, 9, 9, 9⟩ rfl rfl).1 rfl⟩

/-! ### Claim C4 — truncated trailing record -/

/-- C4 counterexample: a `.scid` file of 57 bytes (56-byte header plus a
1-byte partial record) and a `.depth` file of 65 bytes (64-byte header plus
a 1-byte partial record) make `parse_tas` / `parse_depth` raise
`struct.error` (`Except.error ()`), not return the whole records decoded so
far without error. -/
theorem c4_counterexample_partial_record_raises :
    parse_tas (List.replicate 57 0) 0 = .error () ∧
    parse_depth (List.replicate 65 0) 0 = .error () := by
  constructor
  · unfold parse_tas
    rw [parseChunks_error _ _ (by decide)]
    rfl
  · unfold parse_depth
    rw [parseChunks_error _ _ (by decide)]
    rfl

/-- C4 (amended): when the data section after the seek position is a whole
multiple of the record length, `parse_tas` / `parse_depth` return exactly
the records decoded from the whole fixed-size records; but when a non-empty
trailing partial record remains (data section not a whole multiple of the
record length), the short read is handed to `unpack_from`, which raises
`struct.error` — the partial record is not silently dropped. -/
theorem c4_amended_parsers_on_partial_and_whole
    (f1 f2 f3 f4 : List Nat) (c1 c2 c3 c4 : Nat) (k2 k4 : Nat)
    (h1 : (f1.drop (INTRADAY_HEADER_LEN + c1 * INTRADAY_REC_LEN)).length
            % INTRADAY_REC_LEN ≠ 0)
    (h2 : (f2.drop (INTRADAY_HEADER_LEN + c2 * INTRADAY_REC_LEN)).length
            = INTRADAY_REC_LEN * k2)
    (h3 : (f3.drop (DEPTH_HEADER_LEN + c3 * DEPTH_REC_LEN)).length
            % DEPTH_REC_LEN ≠ 0)
    (h4 : (f4.drop (DEPTH_HEADER_LEN + c4 * DEPTH_REC_LEN)).length
            = DEPTH_REC_LEN * k4) :
    parse_tas f1 c1 = .error () ∧
    parse_tas f2 c2 = .ok
      ((chunkList INTRADAY_REC_LEN
          (f2.drop (INTRADAY_HEADER_LEN + c2 * INTRADAY_REC_LEN)) k2).map
        fun b => tasFromIR (unpackIntraday b)) ∧
    parse_depth f3 c3 = .error () ∧
    parse_depth f4 c4 = .ok
      ((chunkList DEPTH_REC_LEN
          (f4.drop (DEPTH_HEADER_LEN + c4 * DEPTH_REC_LEN)) k4).map unpackDepth) := by
  refine ⟨?_, ?_, ?_, ?_⟩
  · unfold parse_tas
    rw [parseChunks_error _ _ h1]
    rfl
  · unfold parse_tas
    rw [parseChunks_whole INTRADAY_REC_LEN (by decide) k2 _ h2]
    rfl
  · unfold parse_depth
    rw [parseChunks_error _ _ h3]
    rfl
  · unfold parse_depth
    rw [parseChunks_whole DEPTH_REC_LEN (by decide) k4 _ h4]
    rfl

/-- Witness for `c4_amended_parsers_on_partial_and_whole`: 57- and 65-byte
truncated files, and 96- and 88-byte whole-record files. -/
theorem c4_amended_witness :
    ((List.replicate 57 0).drop (INTRADAY_HEADER_LEN + 0 * INTRADAY_REC_LEN)).length
        % INTRADAY_REC_LEN ≠ 0 ∧
    ((List.replicate 96 0).drop (INTRADAY_HEADER_LEN + 0 * INTRADAY_REC_LEN)).length
        = INTRADAY_REC_LEN * 1 ∧
    ((List.replicate 65 0).drop (DEPTH_HEADER_LEN + 0 * DEPTH_REC_LEN)).length
        % DEPTH_REC_LEN ≠ 0 ∧
    ((List.replicate 88 0).drop (DEPTH_HEADER_LEN + 0 * DEPTH_REC_LEN)).length
        = DEPTH_REC_LEN * 1 ∧
    (parse_tas (List.replicate 57 0) 0 = .error () ∧
      parse_tas (List.replicate 96 0) 0 = .ok
        ((chunkList INTRADAY_REC_LEN
            ((List.replicate 96 0).drop (INTRADAY_HEADER_LEN + 0 * INTRADAY_REC_LEN)) 1).map
          fun b => tasFromIR (unpackIntraday b)) ∧
      parse_depth (List.replicate 65 0) 0 = .error () ∧
      parse_depth (List.replicate 88 0) 0 = .ok
        ((chunkList DEPTH_REC_LEN
            ((List.replicate 88 0).drop (DEPTH_HEADER_LEN + 0 * DEPTH_REC_LEN)) 1).map
          unpackDepth)) :=
  ⟨by decide, by decide, by decide, by decide,
    c4_amended_parsers_on_partial_and_whole
      (List.replicate 57 0) (List.replicate 96 0) (List.replicate 65 0) (List.replicate 88 0)
      0 0 0 0 1 1 (by decide) (by decide) (by decide) (by decide)⟩

/-! ### Stream-merger lemmas (for C1) -/

theorem drain_mem : ∀ (tas : List TasRec) (lob : List DepthRaw),
    ∀ x ∈ drain tas lob, (∃ t ∈ tas, x = .inl t) ∨ (∃ l ∈ lob, x = .inr l) := by
  intro tas lob
  induction tas, lob using drain.induct with
  | case1 tas => simp [drain]
  | case2 l ls ih =>
    intro x hx
    rw [drain] at hx
    rcases List.mem_cons.mp hx with h | h
    · exact Or.inr ⟨l, List.mem_cons_self l ls, h⟩
    · rcases ih x h with ⟨t, ht, rfl⟩ | ⟨l', hl', rfl⟩
      · simp at ht
      · exact Or.inr ⟨l', List.mem_cons_of_mem l hl', rfl⟩
  | case3 t ts l ls hlt ih =>
    intro x hx
    rw [drain, if_pos hlt] at hx
    rcases List.mem_cons.mp hx with h | h
    · exact Or.inr ⟨l, List.mem_cons_self l ls, h⟩
    · rcases ih x h with ⟨t', ht', rfl⟩ | ⟨l', hl', rfl⟩
      · exact Or.inl ⟨t', ht', rfl⟩
      · exact Or.inr ⟨l', List.mem_cons_of_mem l hl', rfl⟩
  | case4 t ts l ls hlt ih =>
    intro x hx
    rw [drain, if_neg hlt] at hx
    rcases List.mem_cons.mp hx with h | h
    · exact Or.inl ⟨t, List.mem_cons_self t ts, h⟩
    · rcases ih x h with ⟨t', ht', rfl⟩ | ⟨l', hl', rfl⟩
      · exact Or.inl ⟨t', List.mem_cons_of_mem t ht', rfl⟩
      · exact Or.inr ⟨l', hl', rfl⟩

theorem drain_sorted : ∀ (tas : List TasRec) (lob : List DepthRaw),
    List.Pairwise (fun a b => a.ts ≤ b.ts) tas →
    List.Pairwise (fun a b : DepthRaw => a.ts ≤ b.ts) lob →
    List.Pairwise (fun a b => mTs a ≤ mTs b) (drain tas lob) := by
  intro tas lob
  induction tas, lob using drain.induct with
  | case1 tas => intro _ _; simp [drain]
  | case2 l ls ih =>
    intro hst hsl
    rw [drain, List.pairwise_cons]
    obtain ⟨hl, hls⟩ := List.pairwise_cons.mp hsl
    refine ⟨fun y hy => ?_, ih hst hls⟩
    rcases drain_mem _ _ y hy with ⟨t', ht', rfl⟩ | ⟨l', hl', rfl⟩
    · simp at ht'
    · exact hl l' hl'
  | case3 t ts l ls hlt ih =>
    intro hst hsl
    obtain ⟨hl, hls⟩ := List.pairwise_cons.mp hsl
    obtain ⟨ht, hts⟩ := List.pairwise_cons.mp hst
    rw [drain, if_pos hlt, List.pairwise_cons]
    refine ⟨fun y hy => ?_, ih hst hls⟩
    rcases drain_mem _ _ y hy with ⟨t', ht', rfl⟩ | ⟨l', hl', rfl⟩
    · rcases List.mem_cons.mp ht' with rfl | h
      · exact le_of_lt hlt
      · exact le_trans (le_of_lt hlt) (ht t' h)
    · exact hl l' hl'
  | case4 t ts l ls hlt ih =>
    intro hst hsl
    obtain ⟨hl, hls⟩ := List.pairwise_cons.mp hsl
    obtain ⟨ht, hts⟩ := List.pairwise_cons.mp hst
    rw [drain, if_neg hlt, List.pairwise_cons]
    refine ⟨fun y hy => ?_, ih hts hsl⟩
    rcases drain_mem _ _ y hy with ⟨t', ht', rfl⟩ | ⟨l', hl', rfl⟩
    · exact ht t' ht'
    · show t.ts ≤ l'.ts
      rcases List.mem_cons.mp hl' with rfl | h
      · omega
      · have := hl l' h
        omega

theorem drain_right_eq : ∀ (tas : List TasRec) (lob : List DepthRaw),
    (drain tas lob).filterMap Sum.getRight? = lob := by
  intro tas lob
  induction tas, lob using drain.induct with
  | case1 tas => simp [drain]
  | case2 l ls ih => simp [drain, ih]
  | case3 t ts l ls hlt ih => simp [drain, hlt, ih]
  | case4 t ts l ls hlt ih => simp [drain, hlt, ih]

theorem drain_nil_left : ∀ (lob : List DepthRaw),
    (drain [] lob).filterMap Sum.getLeft? = [] := by
  intro lob
  induction lob with
  | nil => simp [drain]
  | cons l ls ih => simp [drain, ih]

theorem lobLastTs_cons (l : DepthRaw) (ls : List DepthRaw) (h : ls ≠ []) :
    lobLastTs (l :: ls) = lobLastTs ls := by
  obtain ⟨a, as, rfl⟩ := List.exists_cons_of_ne_nil h
  simp [lobLastTs]

theorem mem_ts_le_lobLastTs : ∀ (lob : List DepthRaw),
    List.Pairwise (fun a b : DepthRaw => a.ts ≤ b.ts) lob →
    ∀ r ∈ lob, r.ts ≤ lobLastTs lob := by
  intro lob
  induction lob with
  | nil => intro _ r hr; simp at hr
  | cons l ls ih =>
    intro hsl r hr
    obtain ⟨hl, hls⟩ := List.pairwise_cons.mp hsl
    by_cases hnil : ls = []
    · subst hnil
      rcases List.mem_cons.mp hr with rfl | h
      · simp [lobLastTs]
      · simp at h
    · rw [lobLastTs_cons l ls hnil]
      rcases List.mem_cons.mp hr with rfl | h
      · obtain ⟨a, as, rfl⟩ := List.exists_cons_of_ne_nil hnil
        exact le_trans (hl a (List.mem_cons_self a as))
          (ih hls a (List.mem_cons_self a as))
      · exact ih hls r h

theorem drain_left_eq : ∀ (tas : List TasRec) (lob : List DepthRaw),
    List.Pairwise (fun a b => a.ts ≤ b.ts) tas →
    List.Pairwise (fun a b : DepthRaw => a.ts ≤ b.ts) lob →
    lob ≠ [] →
    (drain tas lob).filterMap Sum.getLeft?
      = tas.filter fun t => decide (t.ts ≤ lobLastTs lob) := by
  intro tas lob
  induction tas, lob using drain.induct with
  | case1 tas => intro _ _ hne; exact absurd rfl hne
  | case2 l ls ih =>
    intro _ _ _
    rw [drain]
    simp [drain_nil_left]
  | case3 t ts l ls hlt ih =>
    intro hst hsl hne
    obtain ⟨hl, hls⟩ := List.pairwise_cons.mp hsl
    obtain ⟨ht, hts⟩ := List.pairwise_cons.mp hst
    rw [drain, if_pos hlt]
    by_cases hnil : ls = []
    · subst hnil
      rw [drain]
      simp only [List.filterMap_cons, Sum.getLeft?, List.filterMap_nil]
      rw [eq_comm, List.filter_eq_nil_iff]
      intro a ha
      rcases List.mem_cons.mp ha with rfl | h
      · simp [lobLastTs]; omega
      · have := ht a h
        simp [lobLastTs]; omega
    · rw [List.filterMap_cons]
      simp only [Sum.getLeft?]
      rw [ih hst hls hnil, lobLastTs_cons l ls hnil]
  | case4 t ts l ls hlt ih =>
    intro hst hsl hne
    obtain ⟨hl, hls⟩ := List.pairwise_cons.mp hsl
    obtain ⟨ht, hts⟩ := List.pairwise_cons.mp hst
    rw [drain, if_neg hlt]
    rw [List.filterMap_cons]
    simp only [Sum.getLeft?]
    rw [ih hts hsl (List.cons_ne_nil l ls)]
    have hle : t.ts ≤ lobLastTs (l :: ls) := by
      have h1 : l.ts ≤ lobLastTs (l :: ls) :=
        mem_ts_le_lobLastTs (l :: ls) hsl l (List.mem_cons_self l ls)
      omega

    rw [List.filter_cons_of_pos (by simpa using hle)]

theorem sorted_drop_bisect {α : Type} (key : α → Int) (v : Int) :
    ∀ (l : List α), List.Pairwise (fun a b => key a ≤ key b) l →
      l.drop (bisectRight key l v) = l.filter fun x => decide (v < key x) := by
  intro l
  induction l with
  | nil => intro _; simp [bisectRight]
  | cons t ts ih =>
    intro hs
    obtain ⟨ht, hts⟩ := List.pairwise_cons.mp hs
    by_cases hc : key t ≤ v
    · rw [bisectRight, List.countP_cons_of_pos _ _ (by simpa using hc)]
      rw [List.drop_succ_cons, ← bisectRight, ih hts,
        List.filter_cons_of_neg (by simp; omega)]
    · have hzero : ts.countP (fun r => decide (key r ≤ v)) = 0 := by
        rw [List.countP_eq_zero]
        intro a ha
        have := ht a ha
        simp
        omega
      have hfull : List.filter (fun x => decide (v < key x)) ts = ts :=
        List.filter_eq_self.mpr (by
          intro a ha
          have := ht a ha
          simp
          omega)
      rw [bisectRight, List.countP_cons_of_neg _ _ (by simpa using hc), hzero,
        List.drop_zero, List.filter_cons_of_pos (by simp; omega), hfull]

theorem lobLastTs_drop : ∀ (lob : List DepthRaw) (k : Nat), k < lob.length →
    lobLastTs (lob.drop k) = lobLastTs lob := by
  intro lob
  induction lob with
  | nil => intro k hk; simp at hk
  | cons a as ih =>
    intro k hk
    cases k with
    | zero => rfl
    | succ n =>
      have hn : n < as.length := by simpa using hk
      have hne : as ≠ [] := by
        intro h
        rw [h] at hn
        simp at hn
      rw [List.drop_succ_cons, ih n hn, lobLastTs_cons a as hne]

theorem symSynchronize_lt (tas : List TasRec) (lob : List DepthRaw) (v : Int)
    (h : bisectRight DepthRaw.ts lob v < lob.length) :
    symSynchronize tas lob v
      = some (bisectRight TasRec.ts tas (lob.get ⟨bisectRight DepthRaw.ts lob v, h⟩).ts,
          bisectRight DepthRaw.ts lob v,
          (lob.get ⟨bisectRight DepthRaw.ts lob v, h⟩).ts) := by
  simp only [symSynchronize]
  rw [dif_pos h]

theorem symSynchronize_ge (tas : List TasRec) (lob : List DepthRaw) (v : Int)
    (r : DepthRaw) (h : ¬ bisectRight DepthRaw.ts lob v < lob.length)
    (hg : lob.getLast? = some r) :
    symSynchronize tas lob v
      = some (bisectRight TasRec.ts tas r.ts, bisectRight DepthRaw.ts lob v, r.ts) := by
  simp only [symSynchronize]
  rw [dif_neg h, hg]

theorem symNext_none_iff (tas : List TasRec) (lob : List DepthRaw) (ti li : Nat) :
    symNext tas lob ti li = none ↔ lob.length ≤ li := by
  unfold symNext
  cases h : lob[li]? with
  | none =>
    simpa using List.getElem?_eq_none_iff.mp h
  | some l =>
    have hlt : li < lob.length := by
      by_contra hc
      push_neg at hc
      rw [List.getElem?_eq_none hc] at h
      cases h
    cases tas[ti]? with
    | none => simp; omega
    | some t =>
      by_cases hc : l.ts < t.ts <;> simp [hc] <;> omega

/-! ### Claim C1 — full drain of the merger -/

/-- C1 counterexample: `all()` does not emit every buffered record once.
With one tick at timestamp 1 and one depth record at timestamp 2, the first
`synchronize` (clock 0) sets the clock to 2, and the second `synchronize`
performed by `__iter__` then bisects the depth cursor past the record at 2
(and the tick cursor past the tick at 1), so the drain returns the empty
list — both records are dropped.  With a tick at 2 and depth records at 1
and 3, the second `synchronize` skips the depth record at 1 and sets the
clock to 3, past the tick at 2, so only the depth record at 3 is emitted. -/
theorem c1_counterexample_ticks_dropped :
    allRecs [⟨1, 11, 1, 0⟩] [⟨2, 1, 0, 1, 5, 5, 0⟩] = some [] ∧
    allRecs [⟨2, 7, 1, 0⟩] [⟨1, 1, 0, 1, 5, 5, 0⟩, ⟨3, 2, 0, 1, 6, 6, 0⟩]
      = some [.inr ⟨3, 2, 0, 1, 6, 6, 0⟩] ∧
    ((.inr ⟨2, 1, 0, 1, 5, 5, 0⟩ : MRec) ∉ ([] : List MRec)) ∧
    ((.inl ⟨2, 7, 1, 0⟩ : MRec) ∉ [(.inr ⟨3, 2, 0, 1, 6, 6, 0⟩ : MRec)]) ∧
    ((.inr ⟨1, 1, 0, 1, 5, 5, 0⟩ : MRec) ∉ [(.inr ⟨3, 2, 0, 1, 6, 6, 0⟩ : MRec)]) := by
  refine ⟨?_, ?_, by simp, by simp, by simp⟩
  · simp [allRecs, symSynchronize, bisectRight, drain]
  · simp [allRecs, symSynchronize, bisectRight, drain]

/-- C1 (amended): for ascending-timestamp buffers with positive timestamps
and a non-empty depth buffer, `all()` synchronizes twice — once at clock 0
(moving the clock to the first depth timestamp) and once more inside
`__iter__` at that clock, which advances the depth cursor past the whole
first depth-timestamp group and moves the clock to `ts2`, the smallest depth
timestamp exceeding the first (or the last buffered depth timestamp when
none exceeds it), re-bisecting the tick cursor past every tick with
timestamp ≤ `ts2`.  The drain then succeeds and is non-decreasing in
timestamp; the depth records that appear, exactly once each and in order,
are exactly those with timestamp strictly greater than the first depth
timestamp; the ticks that appear are exactly those with timestamp in
(`ts2`, last depth timestamp]; and `__next__` raises `StopIteration`
exactly when the depth cursor is exhausted — exhausting the tick buffer
still lets depth drain to completion. -/
theorem c1_amended_full_drain (tas : List TasRec) (lob : List DepthRaw)
    (hst : List.Pairwise (fun a b => a.ts ≤ b.ts) tas)
    (hsl : List.Pairwise (fun a b : DepthRaw => a.ts ≤ b.ts) lob)
    (hne : lob ≠ [])
    (hpos : ∀ r ∈ lob, 0 < r.ts) :
    ∃ out ts2,
      symSynchronize tas lob (lob.head hne).ts
        = some (bisectRight TasRec.ts tas ts2,
            bisectRight DepthRaw.ts lob (lob.head hne).ts, ts2) ∧
      (lob.head hne).ts ≤ ts2 ∧ (∃ r ∈ lob, r.ts = ts2) ∧
      allRecs tas lob = some out ∧
      List.Pairwise (fun a b => mTs a ≤ mTs b) out ∧
      out.filterMap Sum.getRight?
        = lob.filter (fun r => decide ((lob.head hne).ts < r.ts)) ∧
      out.filterMap Sum.getLeft?
        = tas.filter (fun t => decide (ts2 < t.ts) && decide (t.ts ≤ lobLastTs lob)) ∧
      (∀ ti li, symNext tas lob ti li = none ↔ lob.length ≤ li) := by
  obtain ⟨l, ls, rfl⟩ := List.exists_cons_of_ne_nil hne
  simp only [List.head_cons]
  have hhead_le : ∀ r ∈ l :: ls, l.ts ≤ r.ts := by
    intro r hr
    rcases List.mem_cons.mp hr with rfl | h
    · exact le_refl _
    · exact (List.pairwise_cons.mp hsl).1 r h
  have hbis0 : bisectRight DepthRaw.ts (l :: ls) 0 = 0 := by
    rw [bisectRight, List.countP_eq_zero]
    intro r hr
    have := hpos r hr
    simp
    omega
  have hsync1 : symSynchronize tas (l :: ls) 0
      = some (bisectRight TasRec.ts tas l.ts, 0, l.ts) := by
    simp [symSynchronize, hbis0]
  have hk_le : bisectRight DepthRaw.ts (l :: ls) l.ts ≤ (l :: ls).length :=
    List.countP_le_length _
  have hdropk : (l :: ls).drop (bisectRight DepthRaw.ts (l :: ls) l.ts)
      = (l :: ls).filter (fun r => decide (l.ts < r.ts)) :=
    sorted_drop_bisect DepthRaw.ts l.ts (l :: ls) hsl
  by_cases hklt : bisectRight DepthRaw.ts (l :: ls) l.ts < (l :: ls).length
  · -- a depth timestamp strictly greater than the first one exists
    have hsync2 := symSynchronize_lt tas (l :: ls) l.ts hklt
    have hget_mem : (l :: ls).get ⟨bisectRight DepthRaw.ts (l :: ls) l.ts, hklt⟩ ∈ l :: ls :=
      List.get_mem _ _ _
    have htasdrop : tas.drop (bisectRight TasRec.ts tas
          ((l :: ls).get ⟨bisectRight DepthRaw.ts (l :: ls) l.ts, hklt⟩).ts)
        = tas.filter (fun t =>
            decide (((l :: ls).get ⟨bisectRight DepthRaw.ts (l :: ls) l.ts, hklt⟩).ts < t.ts)) :=
      sorted_drop_bisect TasRec.ts _ tas hst
    refine ⟨drain (tas.drop (bisectRight TasRec.ts tas
          ((l :: ls).get ⟨bisectRight DepthRaw.ts (l :: ls) l.ts, hklt⟩).ts))
        ((l :: ls).drop (bisectRight DepthRaw.ts (l :: ls) l.ts)),
      ((l :: ls).get ⟨bisectRight DepthRaw.ts (l :: ls) l.ts, hklt⟩).ts,
      hsync2, hhead_le _ hget_mem, ⟨_, hget_mem, rfl⟩, ?_, ?_, ?_, ?_,
      fun ti li => symNext_none_iff tas (l :: ls) ti li⟩
    · rw [allRecs, hsync1]
      dsimp only
      rw [hsync2]
    · exact drain_sorted _ _ (hst.sublist (List.drop_sublist _ _))
        (hsl.sublist (List.drop_sublist _ _))
    · rw [drain_right_eq, hdropk]
    · have hdropne : (l :: ls).drop (bisectRight DepthRaw.ts (l :: ls) l.ts) ≠ [] := by
        intro hnil
        have := congrArg List.length hnil
        simp only [List.length_drop, List.length_nil] at this
        omega
      rw [drain_left_eq _ _ (hst.sublist (List.drop_sublist _ _))
          (hsl.sublist (List.drop_sublist _ _)) hdropne,
        lobLastTs_drop _ _ hklt, htasdrop, List.filter_filter]
      exact List.filter_congr fun a _ => by rw [Bool.and_comm]
  · -- every buffered depth record shares the first timestamp
    have hglast : (l :: ls).getLast? = some ((l :: ls).getLast (List.cons_ne_nil l ls)) :=
      List.getLast?_eq_getLast _ _
    have hsync2 := symSynchronize_ge tas (l :: ls) l.ts _ hklt hglast
    have hkeq : bisectRight DepthRaw.ts (l :: ls) l.ts = (l :: ls).length := by omega
    have hall_le : ∀ r ∈ l :: ls, r.ts ≤ l.ts := by
      have hcp := hkeq
      rw [bisectRight] at hcp
      intro r hr
      have := List.countP_eq_length.mp hcp r hr
      simpa using this
    have hfilter_nil : (l :: ls).filter (fun r => decide (l.ts < r.ts)) = [] := by
      rw [List.filter_eq_nil_iff]
      intro r hr
      have := hall_le r hr
      simp
      omega
    have hdropnil : (l :: ls).drop (bisectRight DepthRaw.ts (l :: ls) l.ts) = [] := by
      rw [hkeq]
      exact List.drop_length _
    have hlastts : lobLastTs (l :: ls) = ((l :: ls).getLast (List.cons_ne_nil l ls)).ts := by
      rw [lobLastTs, hglast]
    refine ⟨[], ((l :: ls).getLast (List.cons_ne_nil l ls)).ts, hsync2,
      hhead_le _ (List.getLast_mem _), ⟨_, List.getLast_mem _, rfl⟩, ?_, by simp, ?_, ?_,
      fun ti li => symNext_none_iff tas (l :: ls) ti li⟩
    · rw [allRecs, hsync1]
      dsimp only
      rw [hsync2]
      dsimp only
      rw [hdropnil]
      simp [drain]
    · simp [hfilter_nil]
    · simp only [List.filterMap_nil]
      rw [hlastts, eq_comm, List.filter_eq_nil_iff]
      intro t _
      simp

/-- Witness for `c1_amended_full_drain`: one tick between two depth records
— the second synchronize drops the depth record at 1 and the tick at 2,
leaving only the depth record at 3. -/
theorem c1_amended_full_drain_witness :
    List.Pairwise (fun a b : TasRec => a.ts ≤ b.ts) [⟨2, 7, 1, 0⟩] ∧
    List.Pairwise (fun a b : DepthRaw => a.ts ≤ b.ts)
      [⟨1, 1, 0, 1, 5, 5, 0⟩, ⟨3, 2, 0, 1, 6, 6, 0⟩] ∧
    ([⟨1, 1, 0, 1, 5, 5, 0⟩, ⟨3, 2, 0, 1, 6, 6, 0⟩] : List DepthRaw) ≠ [] ∧
    (∀ r ∈ ([⟨1, 1, 0, 1, 5, 5, 0⟩, ⟨3, 2, 0, 1, 6, 6, 0⟩] : List DepthRaw), 0 < r.ts) ∧
    (∃ out ts2,
      symSynchronize [⟨2, 7, 1, 0⟩] [⟨1, 1, 0, 1, 5, 5, 0⟩, ⟨3, 2, 0, 1, 6, 6, 0⟩]
          ((([⟨1, 1, 0, 1, 5, 5, 0⟩, ⟨3, 2, 0, 1, 6, 6, 0⟩] :
              List DepthRaw).head (by simp)).ts)
        = some (bisectRight TasRec.ts [⟨2, 7, 1, 0⟩] ts2,
            bisectRight DepthRaw.ts [⟨1, 1, 0, 1, 5, 5, 0⟩, ⟨3, 2, 0, 1, 6, 6, 0⟩]
              ((([⟨1, 1, 0, 1, 5, 5, 0⟩, ⟨3, 2, 0, 1, 6, 6, 0⟩] :
                  List DepthRaw).head (by simp)).ts), ts2) ∧
      ((([⟨1, 1, 0, 1, 5, 5, 0⟩, ⟨3, 2, 0, 1, 6, 6, 0⟩] :
          List DepthRaw).head (by simp)).ts) ≤ ts2 ∧
      (∃ r ∈ ([⟨1, 1, 0, 1, 5, 5, 0⟩, ⟨3, 2, 0, 1, 6, 6, 0⟩] : List DepthRaw),
        r.ts = ts2) ∧
      allRecs [⟨2, 7, 1, 0⟩] [⟨1, 1, 0, 1, 5, 5, 0⟩, ⟨3, 2, 0, 1, 6, 6, 0⟩] = some out ∧
      List.Pairwise (fun a b => mTs a ≤ mTs b) out ∧
      out.filterMap Sum.getRight?
        = ([⟨1, 1, 0, 1, 5, 5, 0⟩, ⟨3, 2, 0, 1, 6, 6, 0⟩] : List DepthRaw).filter
            (fun r => decide ((([⟨1, 1, 0, 1, 5, 5, 0⟩, ⟨3, 2, 0, 1, 6, 6, 0⟩] :
                List DepthRaw).head (by simp)).ts < r.ts)) ∧
      out.filterMap Sum.getLeft?
        = ([⟨2, 7, 1, 0⟩] : List TasRec).filter
            (fun t => decide (ts2 < t.ts) &&
              decide (t.ts ≤ lobLastTs [⟨1, 1, 0, 1, 5, 5, 0⟩, ⟨3, 2, 0, 1, 6, 6, 0⟩])) ∧
      (∀ ti li, symNext [⟨2, 7, 1, 0⟩] [⟨1, 1, 0, 1, 5, 5, 0⟩, ⟨3, 2, 0, 1, 6, 6, 0⟩] ti li
          = none ↔ ([⟨1, 1, 0, 1, 5, 5, 0⟩, ⟨3, 2, 0, 1, 6, 6, 0⟩] :
              List DepthRaw).length ≤ li)) :=
  ⟨by decide, by decide, by decide, by decide,
    c1_amended_full_drain [⟨2, 7, 1, 0⟩] [⟨1, 1, 0, 1, 5, 5, 0⟩, ⟨3, 2, 0, 1, 6, 6, 0⟩]
      (by decide) (by decide) (by decide) (by decide)⟩

/-! ### Claim C8 — tick record decoding -/

/-- C8: every whole tick record returned by `parse_tas` is decoded from its
40-byte chunk of the data section per the wire layout — int64 timestamp at
offset 0, the float32 close word at offset 20 becoming the price, and the
uint32 bidVolume/askVolume words at offsets 32/36 determining
`quantity := bidVolume if bidVolume > 0 else askVolume` and
`side := BidFill (0) if bidVolume > 0 else AskFill (1)`. -/
theorem c8_tick_record_decoding (file : List Nat) (c : Nat) (rs : List TasRec)
    (h : parse_tas file c = .ok rs) (i : Nat) (hi : i < rs.length) :
    rs[i]? = some (tasFromIR (unpackIntraday
        (((file.drop (INTRADAY_HEADER_LEN + c * INTRADAY_REC_LEN)).drop
            (INTRADAY_REC_LEN * i)).take INTRADAY_REC_LEN))) ∧
    ∀ b : List Nat,
      tasFromIR (unpackIntraday b) =
        { ts := toInt64 (readLE b 0 8)
          price := readLE b 20 4
          qty := if readLE b 32 4 ≠ 0 then readLE b 32 4 else readLE b 36 4
          side := if readLE b 32 4 > 0 then 0 else 1 } := by
  refine ⟨?_, fun b => by simp [tasFromIR, unpackIntraday]⟩
  unfold parse_tas at h
  cases hp : parseChunks INTRADAY_REC_LEN
      (file.drop (INTRADAY_HEADER_LEN + c * INTRADAY_REC_LEN)) with
  | error e => rw [hp] at h; simp [Except.map] at h
  | ok cs =>
    rw [hp] at h
    simp only [Except.map, Except.ok.injEq] at h
    subst h
    have hlen : i < cs.length := by simpa using hi
    have hc := parseChunks_getElem INTRADAY_REC_LEN i _ cs hp hlen
    rw [List.getElem?_map, hc]
    rfl

/-- Witness for `c8_tick_record_decoding`: a 96-byte all-zero file decodes to
the single record `(0, 0, 0, AskFill)`. -/
theorem c8_tick_record_decoding_witness :
    parse_tas (List.replicate 96 0) 0 = .ok [{ ts := 0, price := 0, qty := 0, side := 1 }] ∧
    (0 : Nat) < 1 ∧
    ([({ ts := 0, price := 0, qty := 0, side := 1 } : TasRec)] : List TasRec)[0]? =
      some (tasFromIR (unpackIntraday
        ((((List.replicate 96 0).drop (INTRADAY_HEADER_LEN + 0 * INTRADAY_REC_LEN)).drop
            (INTRADAY_REC_LEN * 0)).take INTRADAY_REC_LEN))) := by
  have h : parse_tas (List.replicate 96 0) 0
      = .ok [{ ts := 0, price := 0, qty := 0, side := 1 }] := by
    unfold parse_tas
    rw [parseChunks_whole INTRADAY_REC_LEN (by decide) 1 _ (by decide)]
    rfl
  exact ⟨h, by decide, (c8_tick_record_decoding (List.replicate 96 0) 0 _ h 0 (by decide)).1⟩

/-! ### Claim C7 — checkpoint idempotence -/

/-- C7: for a tick file whose data section holds exactly `R` whole records
and any `N ≤ R`, parsing from checkpoint 0, keeping the first `N` records,
re-parsing from checkpoint `N` (which seeks to `headerLen + N·recLen`), and
applying the same price transformation to both batches yields, concatenated,
exactly the single-pass parse transformed once. -/
theorem c7_checkpoint_idempotence (file : List Nat) (R N : Nat) (adj : Nat → Nat)
    (hlen : file.length = INTRADAY_HEADER_LEN + INTRADAY_REC_LEN * R) (hN : N ≤ R) :
    ∃ rs, parse_tas file 0 = .ok rs ∧ rs.length = R ∧
      parse_tas file N = .ok (rs.drop N) ∧
      transform_tas (rs.take N) adj ++ transform_tas (rs.drop N) adj
        = transform_tas rs adj := by
  have hdata : (file.drop (INTRADAY_HEADER_LEN + 0 * INTRADAY_REC_LEN)).length
      = INTRADAY_REC_LEN * R := by
    simp only [List.length_drop, hlen, INTRADAY_HEADER_LEN, INTRADAY_REC_LEN]
    omega
  have hok := parseChunks_whole INTRADAY_REC_LEN (by decide) R _ hdata
  refine ⟨(chunkList INTRADAY_REC_LEN
      (file.drop (INTRADAY_HEADER_LEN + 0 * INTRADAY_REC_LEN)) R).map
        (fun b => tasFromIR (unpackIntraday b)), ?_, ?_, ?_, ?_⟩
  · unfold parse_tas
    rw [hok]
    rfl
  · simp [chunkList_length]
  · have hdrop := parseChunks_drop INTRADAY_REC_LEN N _ _ hok
    rw [List.drop_drop] at hdrop
    unfold parse_tas
    have harith : INTRADAY_HEADER_LEN + N * INTRADAY_REC_LEN
        = INTRADAY_HEADER_LEN + 0 * INTRADAY_REC_LEN + INTRADAY_REC_LEN * N := by
      simp [INTRADAY_HEADER_LEN, INTRADAY_REC_LEN]; ring
    rw [harith, hdrop]
    simp [Except.map, List.map_drop]
  · simp only [transform_tas, ← List.map_append, ← List.map_take, ← List.map_drop,
      List.take_append_drop]

/-- Witness for `c7_checkpoint_idempotence`: a 136-byte file (two records),
split after the first record. -/
theorem c7_checkpoint_idempotence_witness :
    (List.replicate 136 0).length = INTRADAY_HEADER_LEN + INTRADAY_REC_LEN * 2 ∧
    1 ≤ 2 ∧
    (∃ rs, parse_tas (List.replicate 136 0) 0 = .ok rs ∧ rs.length = 2 ∧
      parse_tas (List.replicate 136 0) 1 = .ok (rs.drop 1) ∧
      transform_tas (rs.take 1) id ++ transform_tas (rs.drop 1) id
        = transform_tas rs id) :=
  ⟨by simp [INTRADAY_HEADER_LEN, INTRADAY_REC_LEN], by decide,
    c7_checkpoint_idempotence (List.replicate 136 0) 2 1 id
      (by simp [INTRADAY_HEADER_LEN, INTRADAY_REC_LEN]) (by decide)⟩

/-! ### Claim C2 — volume bars -/

/-- C2 counterexample: the ticks with quantities `[50, 30, 25, 40]` and
threshold 60 do NOT yield two bars `[50,30] / [25,40]` with volumes 80/65:
`cumulative_volume // 60` is `[0, 1, 1, 2]`, so three bars `[50] / [30,25] /
[40]` with volumes `[50, 55, 40]` result, and the non-final first bar's
volume 50 is below the threshold. -/
theorem c2_counterexample_volume_bars :
    (build_volume_bars
        [⟨1, 1, 50, false⟩, ⟨2, 1, 30, false⟩, ⟨3, 1, 25, false⟩, ⟨4, 1, 40, false⟩]
        60).map Bar.volume = [50, 55, 40] ∧
    ¬ (build_volume_bars
        [⟨1, 1, 50, false⟩, ⟨2, 1, 30, false⟩, ⟨3, 1, 25, false⟩, ⟨4, 1, 40, false⟩]
        60).length = 2 ∧
    ¬ ∀ b ∈ (build_volume_bars
        [⟨1, 1, 50, false⟩, ⟨2, 1, 30, false⟩, ⟨3, 1, 25, false⟩, ⟨4, 1, 40, false⟩]
        60).dropLast, 60 ≤ b.volume := by
  refine ⟨by decide, by decide, ?_⟩
  decide

/-- C2 (amended): `build_volume_bars` groups ticks by
`floor(cumulativeVolume / V)` (plus the session-start offset, zero here), so
a bar's volume may fall below the threshold even when it is not the last
bar; ticks with quantities `[50, 30, 25, 40]` and `V = 60` yield exactly
three bars, grouped as `[50]`, `[30, 25]`, `[40]`, with volumes 50, 55 and
40 (summing to the total volume 145). -/
theorem c2_amended_volume_bars :
    (volGroups
        [⟨1, 1, 50, false⟩, ⟨2, 1, 30, false⟩, ⟨3, 1, 25, false⟩, ⟨4, 1, 40, false⟩]
        60).map (List.map VTick.qty) = [[50], [30, 25], [40]] ∧
    (build_volume_bars
        [⟨1, 1, 50, false⟩, ⟨2, 1, 30, false⟩, ⟨3, 1, 25, false⟩, ⟨4, 1, 40, false⟩]
        60).map Bar.volume = [50, 55, 40] ∧
    ((build_volume_bars
        [⟨1, 1, 50, false⟩, ⟨2, 1, 30, false⟩, ⟨3, 1, 25, false⟩, ⟨4, 1, 40, false⟩]
        60).map Bar.volume).sum = 145 := by
  refine ⟨by decide, by decide, by decide⟩

/-! ### Order-book lemmas (for C5 and C6) -/

theorem findSnapsAux_eTs_mem : ∀ (rs : List DepthRec) (idx : Nat) (st : Option (Nat × Int)),
    ∀ s ∈ findSnapsAux rs idx st, ∃ r ∈ rs, s.eTs = r.ts := by
  intro rs
  induction rs with
  | nil => intro idx st s hs; simp [findSnapsAux] at hs
  | cons r rest ih =>
    intro idx st s hs
    rw [findSnapsAux] at hs
    rcases hst2 : (if r.cmd = 1 then some (idx, r.ts) else st) with _ | ⟨si, sts⟩ <;>
        rw [hst2] at hs <;> dsimp only at hs
    · obtain ⟨r', hr', he⟩ := ih (idx + 1) none s hs
      exact ⟨r', List.mem_cons_of_mem r hr', he⟩
    · by_cases hf : r.flags &&& 1 ≠ 0
      · rw [if_pos hf] at hs
        rcases List.mem_cons.mp hs with rfl | hs'
        · exact ⟨r, List.mem_cons_self r rest, rfl⟩
        · obtain ⟨r', hr', he⟩ := ih (idx + 1) _ s hs'
          exact ⟨r', List.mem_cons_of_mem r hr', he⟩
      · rw [if_neg hf] at hs
        obtain ⟨r', hr', he⟩ := ih (idx + 1) _ s hs
        exact ⟨r', List.mem_cons_of_mem r hr', he⟩

theorem findSnaps_eTs_gt (target : Int) : ∀ (df : List DepthRec) (idx : Nat),
    List.Pairwise (fun a b : DepthRec => a.ts ≤ b.ts) df →
    ∀ c, df.find? (fun r => decide (r.cmd = 1)) = some c → target < c.ts →
    ∀ s ∈ findSnapsAux df idx none, target < s.eTs := by
  intro df
  induction df with
  | nil => intro idx _ c hc; simp at hc
  | cons r rest ih =>
    intro idx hsort c hc hlt s hs
    obtain ⟨hr, hrest⟩ := List.pairwise_cons.mp hsort
    by_cases hcmd : r.cmd = 1
    · rw [List.find?_cons_of_pos _ (by simpa using hcmd)] at hc
      cases hc
      rw [findSnapsAux] at hs
      rw [if_pos hcmd] at hs
      dsimp only at hs
      have hrest_bound : ∀ x ∈ findSnapsAux rest (idx + 1) (some (idx, r.ts)),
          target < x.eTs := by
        intro x hx
        obtain ⟨r', hr', he⟩ := findSnapsAux_eTs_mem rest (idx + 1) _ x hx
        have := hr r' hr'
        omega
      by_cases hf : r.flags &&& 1 ≠ 0
      · rw [if_pos hf] at hs
        rcases List.mem_cons.mp hs with rfl | hs'
        · exact hlt
        · exact hrest_bound s hs'
      · rw [if_neg hf] at hs
        exact hrest_bound s hs
    · rw [List.find?_cons_of_neg _ (by simpa using hcmd)] at hc
      rw [findSnapsAux] at hs
      rw [if_neg hcmd] at hs
      exact ih (idx + 1) hrest c hc hlt s hs

theorem reconstructCore_none_of_all_gt (df : List DepthRec) (target : Int)
    (h : ∀ s ∈ find_completed_snapshots df, target < s.eTs) :
    reconstructCore df target = none := by
  have hfilter : (find_completed_snapshots df).filter
      (fun s => decide (s.eTs ≤ target)) = [] := by
    rw [List.filter_eq_nil_iff]
    intro s hs
    have := h s hs
    simp
    omega
  rw [reconstructCore]
  simp only [hfilter]

/-! ### Claim C6 — query before any completed snapshot -/

/-- C6: when no completed snapshot has end timestamp ≤ `targetTs` — in
particular, on timestamp-sorted data, for any `targetTs` strictly before the
timestamp of the first CLEAR_BOOK record — the query returns the
"no valid snapshot" result (`None` with two empty level lists, modelled as
`none`), not an error. -/
theorem c6_no_valid_snapshot (df : List DepthRec) (target : Int) (maxD : Nat) :
    ((∀ s ∈ find_completed_snapshots df, target < s.eTs) →
      reconstruct_book_last_full_snapshot df target maxD = none) ∧
    (List.Pairwise (fun a b : DepthRec => a.ts ≤ b.ts) df →
      ∀ c, df.find? (fun r => decide (r.cmd = 1)) = some c → target < c.ts →
        reconstruct_book_last_full_snapshot df target maxD = none) := by
  constructor
  · intro h
    rw [reconstruct_book_last_full_snapshot, reconstructCore_none_of_all_gt df target h]
  · intro hsort c hc hlt
    rw [reconstruct_book_last_full_snapshot, reconstructCore_none_of_all_gt df target
      (findSnaps_eTs_gt target df 0 hsort c hc hlt)]

/-- Witness for `c6_no_valid_snapshot`: a single CLEAR_BOOK row at timestamp
10 with the end-of-batch flag, queried at `targetTs = 5`. -/
theorem c6_no_valid_snapshot_witness :
    (∀ s ∈ find_completed_snapshots [⟨10, 1, 1, 0, 0, 0⟩], (5 : Int) < s.eTs) ∧
    List.Pairwise (fun a b : DepthRec => a.ts ≤ b.ts) [⟨10, 1, 1, 0, 0, 0⟩] ∧
    ([(⟨10, 1, 1, 0, 0, 0⟩ : DepthRec)] : List DepthRec).find?
        (fun r => decide (r.cmd = 1)) = some ⟨10, 1, 1, 0, 0, 0⟩ ∧
    (5 : Int) < (10 : Int) ∧
    reconstruct_book_last_full_snapshot [⟨10, 1, 1, 0, 0, 0⟩] 5 4 = none :=
  ⟨by decide, by decide, by decide, by decide,
    (c6_no_valid_snapshot [⟨10, 1, 1, 0, 0, 0⟩] 5 4).2 (by decide)
      ⟨10, 1, 1, 0, 0, 0⟩ (by decide) (by decide)⟩

theorem maxByEts_mem : ∀ (vs : List Snap) (v : Snap), maxByEts v vs ∈ v :: vs := by
  intro vs
  induction vs with
  | nil => intro v; simp [maxByEts]
  | cons s rest ih =>
    intro v
    rw [maxByEts]
    rcases List.mem_cons.mp (ih (if s.eTs > v.eTs then s else v)) with h | h
    · rw [h]
      by_cases hc : s.eTs > v.eTs
      · rw [if_pos hc]
        exact List.mem_cons_of_mem v (List.mem_cons_self s rest)
      · rw [if_neg hc]
        exact List.mem_cons_self v _
    · exact List.mem_cons_of_mem v (List.mem_cons_of_mem s h)

theorem maxByEts_ge : ∀ (vs : List Snap) (v : Snap),
    ∀ x ∈ v :: vs, x.eTs ≤ (maxByEts v vs).eTs := by
  intro vs
  induction vs with
  | nil =>
    intro v x hx
    rcases List.mem_cons.mp hx with rfl | h
    · rw [maxByEts]
    · simp at h
  | cons s rest ih =>
    intro v x hx
    rw [maxByEts]
    have hbest : v.eTs ≤ (if s.eTs > v.eTs then s else v).eTs ∧
        s.eTs ≤ (if s.eTs > v.eTs then s else v).eTs := by
      by_cases hc : s.eTs > v.eTs
      · rw [if_pos hc]; omega
      · rw [if_neg hc]; omega
    have hmem := ih (if s.eTs > v.eTs then s else v)
    rcases List.mem_cons.mp hx with rfl | hx'
    · exact le_trans hbest.1 (hmem _ (List.mem_cons_self _ _))
    · rcases List.mem_cons.mp hx' with rfl | hx''
      · exact le_trans hbest.2 (hmem _ (List.mem_cons_self _ _))
      · exact hmem x (List.mem_cons_of_mem _ hx'')

theorem foldl_max_init : ∀ (l : Book) (init : ℚ),
    init ≤ l.foldl (fun m x => max m x.1) init := by
  intro l
  induction l with
  | nil => intro init; simp
  | cons a t ih =>
    intro init
    rw [List.foldl_cons]
    exact le_trans (le_max_left init a.1) (ih (max init a.1))

theorem foldl_max_mem : ∀ (l : Book) (init : ℚ),
    ∀ x ∈ l, x.1 ≤ l.foldl (fun m x => max m x.1) init := by
  intro l
  induction l with
  | nil => intro init x hx; simp at hx
  | cons a t ih =>
    intro init x hx
    rw [List.foldl_cons]
    rcases List.mem_cons.mp hx with rfl | h
    · exact le_trans (le_max_right init x.1) (foldl_max_init t (max init x.1))
    · exact ih (max init a.1) x h

theorem le_maxKey (b : Book) (e : ℚ × Int × Int) (he : e ∈ b) : e.1 ≤ maxKey b := by
  cases b with
  | nil => simp at he
  | cons a t =>
    rw [maxKey]
    rcases List.mem_cons.mp he with rfl | h
    · exact foldl_max_init t e.1
    · exact foldl_max_mem t a.1 e h

theorem foldl_min_init : ∀ (l : Book) (init : ℚ),
    l.foldl (fun m x => min m x.1) init ≤ init := by
  intro l
  induction l with
  | nil => intro init; simp
  | cons a t ih =>
    intro init
    rw [List.foldl_cons]
    exact le_trans (ih (min init a.1)) (min_le_left init a.1)

theorem foldl_min_mem : ∀ (l : Book) (init : ℚ),
    ∀ x ∈ l, l.foldl (fun m x => min m x.1) init ≤ x.1 := by
  intro l
  induction l with
  | nil => intro init x hx; simp at hx
  | cons a t ih =>
    intro init x hx
    rw [List.foldl_cons]
    rcases List.mem_cons.mp hx with rfl | h
    · exact le_trans (foldl_min_init t (min init x.1)) (min_le_right init x.1)
    · exact ih (min init a.1) x h

theorem minKey_le (b : Book) (e : ℚ × Int × Int) (he : e ∈ b) : minKey b ≤ e.1 := by
  cases b with
  | nil => simp at he
  | cons a t =>
    rw [minKey]
    rcases List.mem_cons.mp he with rfl | h
    · exact foldl_min_init t e.1
    · exact foldl_min_mem t a.1 e h

theorem validate_lt (bids asks : Book) (h : validate_book_state bids asks = true)
    (hb : bids ≠ []) (ha : asks ≠ []) : maxKey bids < minKey asks := by
  have hb' : bids.isEmpty = false := by
    cases bids with
    | nil => exact absurd rfl hb
    | cons _ _ => rfl
  have ha' : asks.isEmpty = false := by
    cases asks with
    | nil => exact absurd rfl ha
    | cons _ _ => rfl
  rw [validate_book_state, hb', ha'] at h
  simpa using h

theorem take_cross {α : Type} (r : α → α → Prop) (l : List α)
    (h : List.Pairwise r l) (k : Nat) :
    ∀ x ∈ l.take k, ∀ y ∈ l.drop k, r x y := by
  have h2 : List.Pairwise r (l.take k ++ l.drop k) := by
    rw [List.take_append_drop]; exact h
  exact (List.pairwise_append.mp h2).2.2

/-! ### Claim C5 — shape of a successful reconstruction -/

/-- C5: whenever the query returns a non-empty result `(endTs, topBids,
topAsks)`: `endTs` is the maximal end timestamp ≤ `targetTs` among completed
snapshots; the returned sides are at most `maxDepth` levels each, bids
sorted descending and asks ascending by price; they consist of the
highest-priced bid levels and lowest-priced ask levels of the (post-repair)
reconstructed book, which passed validation; and every returned bid price is
strictly below every returned ask price. -/
theorem c5_reconstruct_success_shape (df : List DepthRec) (target : Int)
    (maxD : Nat) (ets : Int) (B A : Book)
    (h : reconstruct_book_last_full_snapshot df target maxD = some (ets, B, A)) :
    ((∃ s ∈ find_completed_snapshots df, s.eTs = ets) ∧ ets ≤ target ∧
      (∀ s ∈ find_completed_snapshots df, s.eTs ≤ target → s.eTs ≤ ets)) ∧
    (B.length ≤ maxD ∧ List.Pairwise (fun x y : ℚ × Int × Int => y.1 ≤ x.1) B) ∧
    (A.length ≤ maxD ∧ List.Pairwise (fun x y : ℚ × Int × Int => x.1 ≤ y.1) A) ∧
    (∃ bids asks, reconstructCore df target = some (ets, bids, asks) ∧
      validate_book_state bids asks = true ∧
      (∀ x ∈ B, x ∈ bids) ∧ (∀ y ∈ A, y ∈ asks) ∧
      (∀ x ∈ bids, x ∉ B → ∀ y ∈ B, x.1 ≤ y.1) ∧
      (∀ x ∈ asks, x ∉ A → ∀ y ∈ A, y.1 ≤ x.1)) ∧
    (∀ x ∈ B, ∀ y ∈ A, x.1 < y.1) := by
  rw [reconstruct_book_last_full_snapshot] at h
  cases hc : reconstructCore df target with
  | none => rw [hc] at h; cases h
  | some trip =>
    obtain ⟨ets0, bids, asks⟩ := trip
    rw [hc] at h
    simp only [Option.some.injEq, Prod.mk.injEq] at h
    obtain ⟨rfl, rfl, rfl⟩ := h
    -- invert the core
    have hcore := hc
    rw [reconstructCore] at hc
    cases hv : (find_completed_snapshots df).filter
        (fun s => decide (s.eTs ≤ target)) with
    | nil =>
      rw [hv] at hc
      cases hc
    | cons v vs =>
      rw [hv] at hc
      dsimp only at hc
      by_cases hval : validate_book_state (snapBooks df (maxByEts v vs)).1
          (snapBooks df (maxByEts v vs)).2 = true
      · rw [if_pos hval] at hc
        simp only [Option.some.injEq, Prod.mk.injEq] at hc
        obtain ⟨hets, hbids, hasks⟩ := hc
        subst hets hbids hasks
        set best := maxByEts v vs with hbestdef
        have hbest_mem_filter : best ∈ v :: vs := maxByEts_mem vs v
        rw [← hv] at hbest_mem_filter
        have hbest_snap : best ∈ find_completed_snapshots df :=
          List.mem_of_mem_filter hbest_mem_filter
        have hbest_le : best.eTs ≤ target := by
          have := List.of_mem_filter hbest_mem_filter
          simpa using this
        -- membership and ordering facts for the bid side
        have hpermB := List.perm_insertionSort
          (fun x y : ℚ × Int × Int => y.1 ≤ x.1) (snapBooks df best).1
        have hsortB : List.Pairwise (fun x y : ℚ × Int × Int => y.1 ≤ x.1)
            (sortLevelsDesc (snapBooks df best).1) :=
          List.sorted_insertionSort _ _
        have hpermA := List.perm_insertionSort
          (fun x y : ℚ × Int × Int => x.1 ≤ y.1) (snapBooks df best).2
        have hsortA : List.Pairwise (fun x y : ℚ × Int × Int => x.1 ≤ y.1)
            (sortLevelsAsc (snapBooks df best).2) :=
          List.sorted_insertionSort _ _
        have hBsub : ∀ x ∈ (sortLevelsDesc (snapBooks df best).1).take maxD,
            x ∈ (snapBooks df best).1 := by
          intro x hx
          exact hpermB.mem_iff.mp (List.take_subset _ _ hx)
        have hAsub : ∀ y ∈ (sortLevelsAsc (snapBooks df best).2).take maxD,
            y ∈ (snapBooks df best).2 := by
          intro y hy
          exact hpermA.mem_iff.mp (List.take_subset _ _ hy)
        refine ⟨⟨⟨best, hbest_snap, rfl⟩, hbest_le, ?_⟩, ⟨?_, ?_⟩, ⟨?_, ?_⟩,
          ⟨(snapBooks df best).1, (snapBooks df best).2, rfl, hval,
            hBsub, hAsub, ?_, ?_⟩, ?_⟩
        · intro s hs hsle
          have hsf : s ∈ v :: vs := by
            rw [← hv]
            exact List.mem_filter.mpr ⟨hs, by simpa using hsle⟩
          exact maxByEts_ge vs v s hsf
        · rw [List.length_take]
          exact min_le_left _ _
        · exact hsortB.sublist (List.take_sublist _ _)
        · rw [List.length_take]
          exact min_le_left _ _
        · exact hsortA.sublist (List.take_sublist _ _)
        · -- bids not among the returned top levels are priced at or below them
          intro x hx hnx y hy
          have hx' : x ∈ (sortLevelsDesc (snapBooks df best).1) := hpermB.mem_iff.mpr hx
          have hx'' : x ∈ (sortLevelsDesc (snapBooks df best).1).drop maxD := by
            rcases List.mem_append.mp (by
              rw [List.take_append_drop maxD]
              exact hx') with hcase | hcase
            · exact absurd hcase hnx
            · exact hcase
          exact take_cross _ _ hsortB maxD y hy x hx''
        · intro x hx hnx y hy
          have hx' : x ∈ (sortLevelsAsc (snapBooks df best).2) := hpermA.mem_iff.mpr hx
          have hx'' : x ∈ (sortLevelsAsc (snapBooks df best).2).drop maxD := by
            rcases List.mem_append.mp (by
              rw [List.take_append_drop maxD]
              exact hx') with hcase | hcase
            · exact absurd hcase hnx
            · exact hcase
          exact take_cross _ _ hsortA maxD y hy x hx''
        · intro x hx y hy
          have hxb : x ∈ (snapBooks df best).1 := hBsub x hx
          have hya : y ∈ (snapBooks df best).2 := hAsub y hy
          have hlt := validate_lt _ _ hval
            (List.ne_nil_of_mem hxb) (List.ne_nil_of_mem hya)
          calc x.1 ≤ maxKey (snapBooks df best).1 := le_maxKey _ x hxb
            _ < minKey (snapBooks df best).2 := hlt
            _ ≤ y.1 := minKey_le _ y hya
      · rw [if_neg hval] at hc
        cases hc

/-- Witness for `c5_reconstruct_success_shape`: a clear / add-bid-100 /
add-ask-101(+end-of-batch) snapshot queried at `targetTs = 10`. -/
theorem c5_reconstruct_success_shape_witness :
    reconstruct_book_last_full_snapshot
        [⟨1, 1, 0, 0, 0, 0⟩, ⟨2, 2, 0, 1, 100, 10⟩, ⟨3, 3, 1, 1, 101, 5⟩] 10 10
      = some (3, [(100, 10, 1)], [(101, 5, 1)]) ∧
    ((∃ s ∈ find_completed_snapshots
          [⟨1, 1, 0, 0, 0, 0⟩, ⟨2, 2, 0, 1, 100, 10⟩, ⟨3, 3, 1, 1, 101, 5⟩],
        s.eTs = 3) ∧ (3 : Int) ≤ 10 ∧
      (∀ s ∈ find_completed_snapshots
          [⟨1, 1, 0, 0, 0, 0⟩, ⟨2, 2, 0, 1, 100, 10⟩, ⟨3, 3, 1, 1, 101, 5⟩],
        s.eTs ≤ 10 → s.eTs ≤ 3)) ∧
    (([((100 : ℚ), (10 : Int), (1 : Int))] : Book).length ≤ 10 ∧
      List.Pairwise (fun x y : ℚ × Int × Int => y.1 ≤ x.1)
        ([((100 : ℚ), (10 : Int), (1 : Int))] : Book)) ∧
    (([((101 : ℚ), (5 : Int), (1 : Int))] : Book).length ≤ 10 ∧
      List.Pairwise (fun x y : ℚ × Int × Int => x.1 ≤ y.1)
        ([((101 : ℚ), (5 : Int), (1 : Int))] : Book)) ∧
    (∃ bids asks, reconstructCore
        [⟨1, 1, 0, 0, 0, 0⟩, ⟨2, 2, 0, 1, 100, 10⟩, ⟨3, 3, 1, 1, 101, 5⟩] 10
          = some (3, bids, asks) ∧
      validate_book_state bids asks = true ∧
      (∀ x ∈ ([((100 : ℚ), (10 : Int), (1 : Int))] : Book), x ∈ bids) ∧
      (∀ y ∈ ([((101 : ℚ), (5 : Int), (1 : Int))] : Book), y ∈ asks) ∧
      (∀ x ∈ bids, x ∉ ([((100 : ℚ), (10 : Int), (1 : Int))] : Book) →
        ∀ y ∈ ([((100 : ℚ), (10 : Int), (1 : Int))] : Book), x.1 ≤ y.1) ∧
      (∀ x ∈ asks, x ∉ ([((101 : ℚ), (5 : Int), (1 : Int))] : Book) →
        ∀ y ∈ ([((101 : ℚ), (5 : Int), (1 : Int))] : Book), y.1 ≤ x.1)) ∧
    (∀ x ∈ ([((100 : ℚ), (10 : Int), (1 : Int))] : Book),
      ∀ y ∈ ([((101 : ℚ), (5 : Int), (1 : Int))] : Book), x.1 < y.1) :=
  have h : reconstruct_book_last_full_snapshot
      [⟨1, 1, 0, 0, 0, 0⟩, ⟨2, 2, 0, 1, 100, 10⟩, ⟨3, 3, 1, 1, 101, 5⟩] 10 10
        = some (3, [(100, 10, 1)], [(101, 5, 1)]) := by decide
  ⟨h, c5_reconstruct_success_shape
    [⟨1, 1, 0, 0, 0, 0⟩, ⟨2, 2, 0, 1, 100, 10⟩, ⟨3, 3, 1, 1, 101, 5⟩] 10 10
    3 [(100, 10, 1)] [(101, 5, 1)] h⟩

/-! ### ETL lemmas (for C9) -/

theorem isPrefixOf_iff_append : ∀ (n h : List Char),
    n.isPrefixOf h = true ↔ ∃ q, h = n ++ q := by
  intro n
  induction n with
  | nil => intro h; simp [List.isPrefixOf]
  | cons a as ih =>
    intro h
    cases h with
    | nil => simp [List.isPrefixOf]
    | cons b bs =>
      simp only [List.isPrefixOf, Bool.and_eq_true, beq_iff_eq, ih bs]
      constructor
      · rintro ⟨rfl, q, rfl⟩
        exact ⟨q, rfl⟩
      · rintro ⟨q, hq⟩
        rw [List.cons_append] at hq
        cases hq
        exact ⟨rfl, q, rfl⟩

theorem hasSub_iff : ∀ (h n : List Char),
    hasSub n h = true ↔ ∃ p q, h = p ++ n ++ q := by
  intro h
  induction h with
  | nil =>
    intro n
    rw [hasSub]
    simp only [List.isEmpty_iff]
    constructor
    · rintro rfl
      exact ⟨[], [], rfl⟩
    · rintro ⟨p, q, hq⟩
      rcases List.append_eq_nil.mp (List.append_eq_nil.mp hq.symm).1 with ⟨_, h2⟩
      exact h2
  | cons c cs ih =>
    intro n
    rw [hasSub]
    simp only [Bool.or_eq_true, isPrefixOf_iff_append, ih]
    constructor
    · rintro (⟨q, hq⟩ | ⟨p, q, hq⟩)
      · exact ⟨[], q, by simpa using hq⟩
      · exact ⟨c :: p, q, by simp [hq]⟩
    · rintro ⟨p, q, hq⟩
      cases p with
      | nil => exact Or.inl ⟨q, by simpa using hq⟩
      | cons d ds =>
        simp only [List.cons_append, List.append_assoc, List.cons.injEq] at hq
        obtain ⟨rfl, h2⟩ := hq
        exact Or.inr ⟨ds, q, by simpa [List.append_assoc] using h2⟩

theorem prefix_avoid : ∀ (n xs : List Char) (c : Char) (ys q : List Char),
    c ∉ n → xs ++ c :: ys = n ++ q → ∃ q', xs = n ++ q' := by
  intro n
  induction n with
  | nil => intro xs c ys q _ _; exact ⟨xs, rfl⟩
  | cons e n' ih =>
    intro xs c ys q hc h
    cases xs with
    | nil =>
      simp only [List.nil_append, List.cons_append, List.cons.injEq] at h
      obtain ⟨rfl, _⟩ := h
      exact absurd (List.mem_cons_self c n') hc
    | cons x xs' =>
      simp only [List.cons_append, List.cons.injEq] at h
      obtain ⟨rfl, h2⟩ := h
      obtain ⟨q', hq'⟩ := ih xs' c ys q (fun hm => hc (List.mem_cons_of_mem x hm)) h2
      exact ⟨q', by rw [List.cons_append, hq']⟩

theorem split_around (n : List Char) (c : Char) (hc : c ∉ n) :
    ∀ (xs ys p q : List Char), xs ++ c :: ys = p ++ n ++ q →
      (∃ p' q', xs = p' ++ n ++ q') ∨ (∃ p' q', ys = p' ++ n ++ q') := by
  intro xs
  induction xs with
  | nil =>
    intro ys p q h
    cases p with
    | nil =>
      simp only [List.nil_append] at h
      cases n with
      | nil => exact Or.inr ⟨[], ys, by simp⟩
      | cons e n' =>
        simp only [List.cons_append, List.cons.injEq] at h
        obtain ⟨rfl, _⟩ := h
        exact absurd (List.mem_cons_self c n') hc
    | cons d p' =>
      simp only [List.nil_append, List.cons_append, List.append_assoc,
        List.cons.injEq] at h
      obtain ⟨rfl, h2⟩ := h
      exact Or.inr ⟨p', q, by simpa [List.append_assoc] using h2⟩
  | cons x xs' ih =>
    intro ys p q h
    cases p with
    | nil =>
      simp only [List.nil_append] at h
      obtain ⟨q', hq'⟩ := prefix_avoid n (x :: xs') c ys q hc h
      exact Or.inl ⟨[], q', by simpa using hq'⟩
    | cons d p' =>
      simp only [List.cons_append, List.append_assoc, List.cons.injEq] at h
      obtain ⟨rfl, h2⟩ := h
      rcases ih ys p' q (by simpa [List.append_assoc] using h2) with ⟨p'', q', hh⟩ | hr
      · exact Or.inl ⟨x :: p'', q', by simp [hh]⟩
      · exact Or.inr hr

theorem eq_of_sub_same_length (n d p q : List Char) (h : d = p ++ n ++ q)
    (hlen : d.length = n.length) : n = d := by
  have hl : d.length = p.length + n.length + q.length := by
    simp [h, List.length_append]
    omega
  have hp : p = [] := List.eq_nil_of_length_eq_zero (by omega)
  have hq : q = [] := List.eq_nil_of_length_eq_zero (by omega)
  subst hp hq
  simpa using h.symm

theorem hasSub_fullName (D : List Char) (f : DFile)
    (hD : D.length = 8) (hdig : ∀ ch ∈ D, ch.isDigit = true)
    (hdate : f.date.length = 8) :
    hasSub D (fullName f) = true ↔ (hasSub D f.sym = true ∨ D = f.date) := by
  have hdot : '.' ∉ D := fun hm => by
    have := hdig '.' hm
    exact absurd this (by decide)
  constructor
  · intro h
    obtain ⟨p, q, hq⟩ := (hasSub_iff _ D).mp h
    rw [fullName] at hq
    have hsplit1 := split_around D '.' hdot (f.sym ++ '.' :: f.date) depthExt p q
      (by simpa [List.append_assoc] using hq)
    rcases hsplit1 with ⟨p1, q1, hq1⟩ | ⟨p1, q1, hq1⟩
    · have hsplit2 := split_around D '.' hdot f.sym f.date p1 q1
        (by simpa [List.append_assoc] using hq1)
      rcases hsplit2 with ⟨p2, q2, hq2⟩ | ⟨p2, q2, hq2⟩
      · exact Or.inl ((hasSub_iff _ D).mpr ⟨p2, q2, hq2⟩)
      · exact Or.inr (eq_of_sub_same_length D f.date p2 q2 hq2 (by omega))
    · -- D would lie inside the non-digit extension "depth"
      exfalso
      have hne : D ≠ [] := by
        intro hnil
        rw [hnil] at hD
        simp at hD
      obtain ⟨ch, D', rfl⟩ := List.exists_cons_of_ne_nil hne
      have hmem : ch ∈ depthExt := by
        rw [hq1]
        simp
      have hd := hdig ch (List.mem_cons_self ch D')
      rw [depthExt] at hmem
      simp only [List.mem_cons, List.not_mem_nil, or_false] at hmem
      rcases hmem with rfl | rfl | rfl | rfl | rfl
      · exact absurd hd (by decide)
      · exact absurd hd (by decide)
      · exact absurd hd (by decide)
      · exact absurd hd (by decide)
      · exact absurd hd (by decide)
  · intro h
    rcases h with h | rfl
    · obtain ⟨p, q, hq⟩ := (hasSub_iff _ D).mp h
      refine (hasSub_iff _ D).mpr ⟨p, q ++ '.' :: f.date ++ '.' :: depthExt, ?_⟩
      rw [fullName, hq]
      simp [List.append_assoc]
    · refine (hasSub_iff _ f.date).mpr ⟨f.sym ++ ['.'], '.' :: depthExt, ?_⟩
      rw [fullName]
      simp [List.append_assoc]

/-! ### Claim C9 — depth checkpoint application -/

/-- C9 counterexample: checkpoint date `20220906` with record offset 5, and a
single on-disk file `ES20220906.20230101.depth` whose SYMBOL contains the
checkpoint date but whose date (`20230101 > 20220906`) does not equal it.
The file is selected (pattern matches, date ≥ checkpoint date), yet
`checkpoint_date in depth_file` is a substring test on the whole file name,
so this later file is parsed starting at offset 5 — not offset 0 as the
claim requires for every file with a later date. -/
theorem c9_counterexample_substring_checkpoint :
    etlToParse
        [⟨['E', 'S', '2', '0', '2', '2', '0', '9', '0', '6'],
          ['2', '0', '2', '3', '0', '1', '0', '1']⟩]
        (fun _ => true) ['2', '0', '2', '2', '0', '9', '0', '6']
      = [⟨['E', 'S', '2', '0', '2', '2', '0', '9', '0', '6'],
          ['2', '0', '2', '3', '0', '1', '0', '1']⟩] ∧
    (⟨['E', 'S', '2', '0', '2', '2', '0', '9', '0', '6'],
        ['2', '0', '2', '3', '0', '1', '0', '1']⟩ : DFile).date
      ≠ ['2', '0', '2', '2', '0', '9', '0', '6'] ∧
    etlCp ['2', '0', '2', '2', '0', '9', '0', '6'] 5
        ⟨['E', 'S', '2', '0', '2', '2', '0', '9', '0', '6'],
          ['2', '0', '2', '3', '0', '1', '0', '1']⟩ = 5 := by
  refine ⟨by decide, by decide, by decide⟩

/-- C9 (amended): within a contract's selected, name-sorted depth files, a
file is parsed starting at the stored record offset `R` exactly when the
checkpoint date occurs as a substring of its full file name; provided no
selected file's symbol part contains the 8-digit checkpoint date, this is
exactly the file whose embedded date equals the checkpoint date, every other
file starting at offset 0.  Continuous-polling mode is applied only to the
last file of the sorted set, and after all files complete the stored
checkpoint becomes `(date of last file, records consumed in that file)`. -/
theorem c9_amended_depth_pass (files : List DFile) (matchP : List Char → Bool)
    (D : List Char) (R : Nat) (loopMode : Nat) (nrec : DFile → Nat)
    (hD : D.length = 8) (hdig : ∀ ch ∈ D, ch.isDigit = true)
    (hdate : ∀ f ∈ etlToParse files matchP D, f.date.length = 8)
    (hsym : ∀ f ∈ etlToParse files matchP D, hasSub D f.sym = false) :
    (∀ f ∈ etlToParse files matchP D,
      etlCp D R f = if f.date = D then R else 0) ∧
    (∀ f ∈ etlToParse files matchP D,
      ((etlToParse files matchP D).getLast? = some f →
        etlMod loopMode (etlToParse files matchP D) f = loopMode) ∧
      ((etlToParse files matchP D).getLast? ≠ some f →
        etlMod loopMode (etlToParse files matchP D) f = 0)) ∧
    (∀ lf, (etlToParse files matchP D).getLast? = some lf →
      etlCp D R lf ≤ nrec lf →
      etlNewCheckpoint (etlToParse files matchP D) nrec D R
        = some (lf.date, nrec lf)) := by
  refine ⟨?_, ?_, ?_⟩
  · intro f hf
    have hiff := hasSub_fullName D f hD hdig (hdate f hf)
    rw [hsym f hf] at hiff
    rw [etlCp]
    by_cases hcase : f.date = D
    · rw [if_pos hcase, if_pos (hiff.mpr (Or.inr hcase.symm))]
    · rw [if_neg hcase]
      have : hasSub D (fullName f) ≠ true := by
        intro hT
        rcases hiff.mp hT with hF | hEq
        · cases hF
        · exact hcase hEq.symm
      rw [if_neg this]
  · intro f _
    constructor
    · intro hlast
      rw [etlMod, if_pos hlast]
    · intro hlast
      rw [etlMod, if_neg hlast]
  · intro lf hlast hle
    rw [etlNewCheckpoint, hlast]
    dsimp only
    simp only [etlCoroFinalCp, Option.some.injEq, Prod.mk.injEq, true_and]
    omega

/-- Witness for `c9_amended_depth_pass`: two `ES` files dated `20220906` and
`20220907`, checkpoint `(20220906, 3)`, 7 records per file. -/
theorem c9_amended_depth_pass_witness :
    (['2', '0', '2', '2', '0', '9', '0', '6'] : List Char).length = 8 ∧
    (∀ ch ∈ (['2', '0', '2', '2', '0', '9', '0', '6'] : List Char), ch.isDigit = true) ∧
    (∀ f ∈ etlToParse
        [⟨['E', 'S'], ['2', '0', '2', '2', '0', '9', '0', '6']⟩,
          ⟨['E', 'S'], ['2', '0', '2', '2', '0', '9', '0', '7']⟩]
        (fun _ => true) ['2', '0', '2', '2', '0', '9', '0', '6'],
      f.date.length = 8) ∧
    (∀ f ∈ etlToParse
        [⟨['E', 'S'], ['2', '0', '2', '2', '0', '9', '0', '6']⟩,
          ⟨['E', 'S'], ['2', '0', '2', '2', '0', '9', '0', '7']⟩]
        (fun _ => true) ['2', '0', '2', '2', '0', '9', '0', '6'],
      hasSub ['2', '0', '2', '2', '0', '9', '0', '6'] f.sym = false) ∧
    ((∀ f ∈ etlToParse
        [⟨['E', 'S'], ['2', '0', '2', '2', '0', '9', '0', '6']⟩,
          ⟨['E', 'S'], ['2', '0', '2', '2', '0', '9', '0', '7']⟩]
        (fun _ => true) ['2', '0', '2', '2', '0', '9', '0', '6'],
      etlCp ['2', '0', '2', '2', '0', '9', '0', '6'] 3 f
        = if f.date = ['2', '0', '2', '2', '0', '9', '0', '6'] then 3 else 0) ∧
    (∀ f ∈ etlToParse
        [⟨['E', 'S'], ['2', '0', '2', '2', '0', '9', '0', '6']⟩,
          ⟨['E', 'S'], ['2', '0', '2', '2', '0', '9', '0', '7']⟩]
        (fun _ => true) ['2', '0', '2', '2', '0', '9', '0', '6'],
      ((etlToParse
          [⟨['E', 'S'], ['2', '0', '2', '2', '0', '9', '0', '6']⟩,
            ⟨['E', 'S'], ['2', '0', '2', '2', '0', '9', '0', '7']⟩]
          (fun _ => true) ['2', '0', '2', '2', '0', '9', '0', '6']).getLast? = some f →
        etlMod 1 (etlToParse
          [⟨['E', 'S'], ['2', '0', '2', '2', '0', '9', '0', '6']⟩,
            ⟨['E', 'S'], ['2', '0', '2', '2', '0', '9', '0', '7']⟩]
          (fun _ => true) ['2', '0', '2', '2', '0', '9', '0', '6']) f = 1) ∧
      ((etlToParse
          [⟨['E', 'S'], ['2', '0', '2', '2', '0', '9', '0', '6']⟩,
            ⟨['E', 'S'], ['2', '0', '2', '2', '0', '9', '0', '7']⟩]
          (fun _ => true) ['2', '0', '2', '2', '0', '9', '0', '6']).getLast? ≠ some f →
        etlMod 1 (etlToParse
          [⟨['E', 'S'], ['2', '0', '2', '2', '0', '9', '0', '6']⟩,
            ⟨['E', 'S'], ['2', '0', '2', '2', '0', '9', '0', '7']⟩]
          (fun _ => true) ['2', '0', '2', '2', '0', '9', '0', '6']) f = 0)) ∧
    (∀ lf, (etlToParse
        [⟨['E', 'S'], ['2', '0', '2', '2', '0', '9', '0', '6']⟩,
          ⟨['E', 'S'], ['2', '0', '2', '2', '0', '9', '0', '7']⟩]
        (fun _ => true) ['2', '0', '2', '2', '0', '9', '0', '6']).getLast? = some lf →
      etlCp ['2', '0', '2', '2', '0', '9', '0', '6'] 3 lf ≤ (fun _ => 7) lf →
      etlNewCheckpoint (etlToParse
          [⟨['E', 'S'], ['2', '0', '2', '2', '0', '9', '0', '6']⟩,
            ⟨['E', 'S'], ['2', '0', '2', '2', '0', '9', '0', '7']⟩]
          (fun _ => true) ['2', '0', '2', '2', '0', '9', '0', '6']) (fun _ => 7)
          ['2', '0', '2', '2', '0', '9', '0', '6'] 3
        = some (lf.date, (fun _ => 7) lf))) :=
  ⟨by decide, by decide, by decide, by decide,
    c9_amended_depth_pass
      [⟨['E', 'S'], ['2', '0', '2', '2', '0', '9', '0', '6']⟩,
        ⟨['E', 'S'], ['2', '0', '2', '2', '0', '9', '0', '7']⟩]
      (fun _ => true) ['2', '0', '2', '2', '0', '9', '0', '6'] 3 1 (fun _ => 7)
      (by decide) (by decide) (by decide) (by decide)⟩

end Scid
